import Mathlib

/-!
# A verification development for the lll-rs lattice-reduction library

This file gives a shallow embedding, in Lean 4, of the reduction engines of
the lll-rs repository (classical LLL and the L² algorithm of Nguyen–Stehlé,
in their arbitrary-precision flavours), together with theorems about the
embedded code.

Conventions of the embedding:

* Columns of a basis are total functions `Fin n → ℤ` (the Rust `Vector`
  types are fixed-length sequences of coefficients; inside the engines all
  columns share the ambient dimension `n`, so the elementwise operations of
  `src/vector/mod.rs` / `src/algebra/vector.rs` become pointwise operations
  on `Fin n → ℤ`).  The zip-based `Dot` implementations of
  `src/vector/mod.rs` (which carry no dimension check) are embedded
  separately over plain lists, preserving their truncating semantics.
* `rug::Integer` is `ℤ`, `rug::Rational` is `ℚ`.  `rug`'s rounding
  (`fract_round`, `div_rem_round`, `round`) rounds to the nearest integer
  with ties away from zero; `roundQ` below implements exactly that.
  `rug` aborts on division by zero; Lean's total `ℚ` division returns `0`
  instead.  No theorem below depends on a division-by-zero state.
* Loops whose termination is not structural are given an explicit fuel
  argument; `none` output of a fuel-driven runner means the loop has not
  finished within the given fuel.  Where a Rust `panic`/`assert` aborts the
  program, the embedding returns `none` of an outer `Option`.
* `usize` subtraction that can underflow is embedded by `usizeSub1`, which
  returns `none` exactly when the Rust code would fail (debug builds panic
  on the underflow itself; release builds wrap around and then fail on the
  first out-of-range column access).
* Floating-point parameters (`eta`, `delta` and the thresholds derived from
  them) are idealised as exact rationals.  The statements proved below do
  not depend on `binary64` rounding of those parameters: counterexample
  traces are either parametric in the thresholds or evaluated at exact
  dyadic values.
-/

namespace LLLrs

/-- Ambient-dimension-`n` integer column vector (`BigVector`, i.e.
`Vector<rug::Integer>`, with its dimension fixed at `n`). -/
abbrev Vec (n : ℕ) : Type := Fin n → ℤ

namespace Vect

/-- `Vector::sub` (elementwise subtraction; `src/vector/mod.rs:82`). -/
def sub {n : ℕ} (a b : Vec n) : Vec n := fun t => a t - b t

/-- `Vector::add` (elementwise addition; `src/vector/mod.rs:70`). -/
def add {n : ℕ} (a b : Vec n) : Vec n := fun t => a t + b t

/-- `Vector::mulf` (multiplication of every coefficient by a scalar;
`src/vector/mod.rs:100`). -/
def mulf {n : ℕ} (a : Vec n) (c : ℤ) : Vec n := fun t => a t * c

/-- `Dot::dot` for equal-dimension columns (`Σ uᵢ·vᵢ`). -/
def dot {n : ℕ} (a b : Vec n) : ℤ := ∑ t : Fin n, a t * b t

/-- `Vector::is_zero` (`src/vector/mod.rs:115`): comparison with the
all-zero vector of the same dimension. -/
def isZero {n : ℕ} (a : Vec n) : Bool := decide (a = fun _ => 0)

end Vect

/-- Rounding to the nearest integer with ties away from zero: the behaviour
of `rug::Rational::round` / `fract_round` and of Rust's `f64::round`. -/
def roundQ (q : ℚ) : ℤ := if q < 0 then -⌊-q + 1/2⌋ else ⌊q + 1/2⌋

/-- `Scalars::round_div` in the BigNum flavour
(`rug::Integer::div_rem_round`, quotient rounded to nearest, ties away from
zero).  `rug` aborts when `d = 0`; the engines only divide by squared norms
of columns, and no theorem below touches a zero divisor. -/
def roundDiv (nu d : ℤ) : ℤ := roundQ ((nu : ℚ) / (d : ℚ))

/-- Checked `usize` subtraction by one.  `none` models the failure of
`n - 1` at `n = 0` (debug: overflow panic; release: wrap-around followed by
an out-of-bounds column access). -/
def usizeSub1 (a : ℕ) : Option ℕ := if a = 0 then none else some (a - 1)

/-! ## The three basis mutations

Every write the engines perform on the basis is one of the following:
a translation `b_i ← b_i − α·b_j` (classical LLL sweep, L² size reduction),
a column swap (`Matrix::swap`), or a remove-and-reinsert
(`Matrix::insert`, `src/algebra/matrix.rs:63`). -/

/-- `basis[i] = basis[i].sub(&basis[j].mulf(α))`, the translation step. -/
def translateCol {n : ℕ} (B : List (Vec n)) (i j : ℕ) (a : ℤ) : List (Vec n) :=
  B.set i (Vect.sub (B.getD i 0) (Vect.mulf (B.getD j 0) a))

/-- `Matrix::swap(i, j)` — exchange of columns `i` and `j`. -/
def swapCols {α : Type _} [Inhabited α] (B : List α) (i j : ℕ) : List α :=
  (B.set i (B.getD j default)).set j (B.getD i default)

/-- `Matrix::insert(i, j)`: remove column `i` and reinsert it at position
`j` (`let v = self.columns.remove(i); self.columns.insert(j, v)`). -/
def insertCol {α : Type _} [Inhabited α] (B : List α) (i j : ℕ) : List α :=
  (B.eraseIdx i).insertIdx j (B.getD i default)

/-- The ℤ-span of the columns of a basis: the lattice it generates. -/
def spanOf {n : ℕ} (B : List (Vec n)) : Submodule ℤ (Vec n) :=
  Submodule.span ℤ {v | v ∈ B}

/-- All columns of the basis are the zero vector. -/
def allZero {n : ℕ} (B : List (Vec n)) : Prop := ∀ v ∈ B, v = (0 : Vec n)

/-! ## Matrix-of-scalars helpers

`Matrix<T>` values used as working state (`gram`, `mu`, `r`) are ordered
sequences of columns; `m[i][j]` reads coefficient `j` of column `i`. -/

/-- Read `m[i][j]` (out-of-range reads yield `0`; the engines stay in
range there). -/
def mget {α : Type _} [Zero α] (m : List (List α)) (i j : ℕ) : α :=
  (m.getD i []).getD j 0

/-- Write `m[i][j] = x`. -/
def mset {α : Type _} (m : List (List α)) (i j : ℕ) (x : α) : List (List α) :=
  m.set i ((m.getD i []).set j x)

/-- `Matrix::init(d, d)` over the Integer domain: `d` zero columns of
dimension `d`. -/
def zeroMatZ (d : ℕ) : List (List ℤ) := List.replicate d (List.replicate d 0)

/-- `Matrix::init(d, d)` over the Fraction domain. -/
def zeroMatQ (d : ℕ) : List (List ℚ) := List.replicate d (List.replicate d 0)

/-- Populate the lower triangle of the Gram matrix:
`for i in 0..d { for j in 0..=i { gram[i][j] = basis[i].dot(&basis[j]) } }`
(identical loops at `l2/mod.rs:32`, `l2/mod.rs:80`, `bigl2.rs:24`). -/
def computeGram {n : ℕ} (d : ℕ) (B : List (Vec n)) (g : List (List ℤ)) :
    List (List ℤ) :=
  (List.range d).foldl (fun g i =>
    (List.range (i + 1)).foldl (fun g j =>
      mset g i j (Vect.dot (B.getD i 0) (B.getD j 0))) g) g

/-! ## Classical LLL (`src/lll/mod.rs`, BigNum instantiation)

The engine is embedded in the `Option` monad: every column access goes
through checked indexing, so a `none` result is a panic of the Rust code
(out-of-range access or `usize` underflow); loops driven by the
`swap_condition` flag carry explicit fuel. -/

namespace lll

/-- One translation of the rounded Gram–Schmidt sweep
(`lll/mod.rs:33-36`): `α = round_div(⟨b_i,b_j⟩, ⟨b_j,b_j⟩)`;
`b_i ← b_i − α·b_j`. -/
def sweepStep {n : ℕ} (B : List (Vec n)) (i j : ℕ) : Option (List (Vec n)) := do
  let bi ← B[i]?
  let bj ← B[j]?
  let alpha := roundDiv (Vect.dot bi bj) (Vect.dot bj bj)
  pure (B.set i (Vect.sub bi (Vect.mulf bj alpha)))

/-- Inner sweep loop as written in the source
(`for k in 1..i { let j = i - k; … }`, `lll/mod.rs:30-37`). -/
def sweepInner {n : ℕ} (i : ℕ) : List ℕ → List (Vec n) → Option (List (Vec n))
  | [], B => some B
  | k :: ks, B => do
      let B2 ← sweepStep B i (i - k)
      sweepInner i ks B2

/-- Outer sweep loop (`for i in 0..n`, `lll/mod.rs:29`). -/
def sweepOuter {n : ℕ} : List ℕ → List (Vec n) → Option (List (Vec n))
  | [], B => some B
  | i :: rest, B => do
      let B2 ← sweepInner i (List.range' 1 (i - 1)) B
      sweepOuter rest B2

/-- The size-reduce sweep of one outer iteration. -/
def sweep {n : ℕ} (d : ℕ) (B : List (Vec n)) : Option (List (Vec n)) :=
  sweepOuter (List.range d) B

/-- The Lovász scan (`lll/mod.rs:42-57`): on the first index `i` with
`δ·⟨b_i,b_i⟩ > ⟨w,w⟩` (where `w = b_{i+1} + α·b_i`), swap columns `i` and
`i+1` and report `true`; if no index fires, report `false`. -/
def lovaszLoop {n : ℕ} : List ℕ → List (Vec n) → Option (List (Vec n) × Bool)
  | [], B => some (B, false)
  | i :: rest, B => do
      let bi ← B[i]?
      let bip ← B[i + 1]?
      let lhs : ℚ := ((3 : ℚ) / 4) * ((Vect.dot bi bi : ℤ) : ℚ)
      let alpha := roundDiv (Vect.dot bip bi) (Vect.dot bi bi)
      let w := Vect.add bip (Vect.mulf bi alpha)
      if ((Vect.dot w w : ℤ) : ℚ) < lhs then pure (swapCols B i (i + 1), true)
      else lovaszLoop rest B

/-- One iteration of the `while swapped` loop: sweep, then the Lovász scan
over `0..n-1` (the bound `n - 1` is an unchecked `usize` subtraction). -/
def pass {n : ℕ} (d : ℕ) (B : List (Vec n)) : Option (List (Vec n) × Bool) := do
  let B1 ← sweep d B
  let m ← usizeSub1 d
  lovaszLoop (List.range m) B1

/-- The `while swap_condition` loop with fuel.  `none` is a panic;
`some none` is fuel exhaustion; `some (some B)` is normal return. -/
def loop {n : ℕ} (d : ℕ) : ℕ → List (Vec n) → Option (Option (List (Vec n)))
  | 0, _ => some none
  | fuel + 1, B =>
      match pass d B with
      | none => none
      | some (B1, true) => loop d fuel B1
      | some (B1, false) => some (some B1)

/-- `lll::lattice_reduce` (BigNum flavour): `n` is read once from
`basis.dimensions()` on entry, and the flag loop starts with
`swapped = true`. -/
def lattice_reduce {n : ℕ} (fuel : ℕ) (B : List (Vec n)) :
    Option (Option (List (Vec n))) :=
  loop B.length fuel B

/-- The list `[m, m-1, …, 1]`: indices `j` running from `m` down to `1`. -/
def descFrom : ℕ → List ℕ
  | 0 => []
  | m + 1 => (m + 1) :: descFrom m

/-- The size-reduce inner loop as the specification words it: `j` runs over
an explicit list of indices and each step applies `sweepStep`. -/
def sweepInnerSpec {n : ℕ} (i : ℕ) : List ℕ → List (Vec n) → Option (List (Vec n))
  | [], B => some B
  | j :: js, B => do
      let B2 ← sweepStep B i j
      sweepInnerSpec i js B2

/-- Specification-level outer sweep over an explicit list of column
indices. -/
def sweepOuterSpec {n : ℕ} : List ℕ → List (Vec n) → Option (List (Vec n))
  | [], B => some B
  | i :: rest, B => do
      let B2 ← sweepInnerSpec i (descFrom (i - 1)) B
      sweepOuterSpec rest B2

/-- Specification-level sweep: for `i` from `0` to `d−1`, reduce `b_i`
against `b_j` for `j` from `i−1` down to `1` (never against `b_0`). -/
def sweepSpec {n : ℕ} (d : ℕ) (B : List (Vec n)) : Option (List (Vec n)) :=
  sweepOuterSpec (List.range d) B

end lll

/-! ## The BigNum L² engine of `src/l2/bigl2.rs`

State of the main loop: the basis and the `gram`/`mu`/`r` matrices plus the
working index `k`.  All numeric loops are folds in source order; the
recursive `size_reduce` carries fuel. -/

namespace bigl2

/-- Working state of `bigl2::lattice_reduce`. -/
structure State (n : ℕ) where
  basis : List (Vec n)
  gram : List (List ℤ)
  mu : List (List ℚ)
  r : List (List ℚ)
  k : ℕ
deriving DecidableEq

/-- `bigl2.rs:99-105`: for `i in 0..=k`,
`r[k][i] = G[k][i] − Σ_{idx<i} μ[i][idx]·r[k][idx]`;
`μ[k][i] = r[k][i]/r[i][i]`. -/
def updateMuR {n : ℕ} (k : ℕ) (st : State n) : State n :=
  (List.range (k + 1)).foldl (fun st i =>
    let rki : ℚ := ((mget st.gram k i : ℤ) : ℚ) -
        ((List.range i).map (fun idx => mget st.mu i idx * mget st.r k idx)).sum
    let r2 := mset st.r k i rki
    { st with r := r2, mu := mset st.mu k i (rki / mget r2 i i) }) st

/-- `bigl2.rs:107`: the size-reduction trigger compares the **signed**
coefficient with the threshold (`mu[k][index] > eta`, no absolute value). -/
def needsReduction {n : ℕ} (em : ℚ) (k : ℕ) (st : State n) : Bool :=
  (List.range k).any (fun idx => decide (em < mget st.mu k idx))

/-- One iteration of the reduction loop body at index `i`
(`bigl2.rs:108-124`): `x = round(μ[k][i])`; `b_k ← b_k − x·b_i`; refresh the
Gram entries involving column `k`; `μ[k][j] ← μ[k][j] − x·μ[i][j]` for
`j < i`. -/
def reduceStep {n : ℕ} (k d : ℕ) (st : State n) (i : ℕ) : State n :=
  let x := roundQ (mget st.mu k i)
  let basis2 := translateCol st.basis k i x
  let gram2 := (List.range d).foldl (fun g j =>
      if j < k then mset g k j (Vect.dot (basis2.getD k 0) (basis2.getD j 0))
      else mset g j k (Vect.dot (basis2.getD k 0) (basis2.getD j 0))) st.gram
  let mu2 := (List.range i).foldl (fun m j =>
      mset m k j (mget m k j - (x : ℚ) * mget m i j)) st.mu
  { st with basis := basis2, gram := gram2, mu := mu2 }

/-- The `for i in (0..k).rev()` reduction loop. -/
def reduceLoop {n : ℕ} (k d : ℕ) : List ℕ → State n → State n
  | [], st => st
  | i :: rest, st => reduceLoop k d rest (reduceStep k d st i)

/-- `bigl2::size_reduce` with fuel for the tail recursion
(`bigl2.rs:89-128`). -/
def size_reduce {n : ℕ} (em : ℚ) (k d : ℕ) : ℕ → State n → Option (State n)
  | 0, _ => none
  | fuel + 1, st =>
      let st1 := updateMuR k st
      if needsReduction em k st1 then
        size_reduce em k d fuel (reduceLoop k d ((List.range k).reverse) st1)
      else some st1

/-- `bigl2.rs:41`: the right-hand side of the Lovász test,
`r[k][k] + μ[k][k−1]·r[k−1][k−1]` — the coefficient `μ[k][k−1]` enters
**unsquared**. -/
def scalarCriterion {n : ℕ} (st : State n) : ℚ :=
  mget st.r st.k st.k + mget st.mu st.k (st.k - 1) * mget st.r (st.k - 1) (st.k - 1)

/-- `bigl2.rs:40`: `δ⁺ · r[k−1][k−1]`. -/
def deltaCriterion {n : ℕ} (dp : ℚ) (st : State n) : ℚ :=
  dp * mget st.r (st.k - 1) (st.k - 1)

/-- `bigl2.rs:44`: advance (`k ← k+1`) exactly when
`delta_criterion < scalar_criterion`. -/
def advanceCond {n : ℕ} (dp : ℚ) (st : State n) : Bool :=
  decide (deltaCriterion dp st < scalarCriterion st)

/-- The swap branch (`bigl2.rs:47-71`): swap columns `k` and `k−1`, refresh
the Gram entries touching them, recompute `r[i][j]` and `μ[i][j]` for
`j ≤ i ≤ k` — with the source's `.square()` on `μ[j][idx]` in the update
formula — and set `k ← max 1 (k−1)`. -/
def swapBranch {n : ℕ} (d : ℕ) (st : State n) : State n :=
  let k := st.k
  let basis2 := swapCols st.basis k (k - 1)
  let gram2 := (List.range d).foldl (fun g j =>
      if j < k then
        mset (mset g k j (Vect.dot (basis2.getD k 0) (basis2.getD j 0)))
          (k - 1) j (Vect.dot (basis2.getD (k - 1) 0) (basis2.getD j 0))
      else
        mset (mset g j k (Vect.dot (basis2.getD k 0) (basis2.getD j 0)))
          j (k - 1) (Vect.dot (basis2.getD (k - 1) 0) (basis2.getD j 0))) st.gram
  let p2 := (List.range (k + 1)).foldl (fun (p : List (List ℚ) × List (List ℚ)) i =>
      (List.range (i + 1)).foldl (fun (p : List (List ℚ) × List (List ℚ)) j =>
        let rij : ℚ := ((mget gram2 i j : ℤ) : ℚ) -
            ((List.range j).map (fun idx => (mget p.1 j idx) ^ 2 * mget p.2 i idx)).sum
        let r2 := mset p.2 i j rij
        (mset p.1 i j (rij / mget r2 j j), r2)) p) (st.mu, st.r)
  { basis := basis2, gram := gram2, mu := p2.1, r := p2.2, k := max 1 (k - 1) }

/-- One iteration of the `while k < d` loop (`bigl2.rs:37-73`). -/
def body {n : ℕ} (em dp : ℚ) (d iF : ℕ) (st : State n) : Option (State n) :=
  (size_reduce em st.k d iF st).map (fun st1 =>
    if advanceCond dp st1 then { st1 with k := st1.k + 1 } else swapBranch d st1)

/-- Engine entry state (`bigl2.rs:17-35`): Gram matrix populated,
`r[0][0] = G[0][0]`, `k = 1`. -/
def initState {n : ℕ} (d : ℕ) (B : List (Vec n)) : State n :=
  let gram := computeGram d B (zeroMatZ d)
  { basis := B, gram := gram, mu := zeroMatQ d,
    r := mset (zeroMatQ d) 0 0 ((mget gram 0 0 : ℤ) : ℚ), k := 1 }

/-- The `while k < d` loop with fuel; `none` means the loop has not
finished. -/
def run {n : ℕ} (em dp : ℚ) (d iF : ℕ) : ℕ → State n → Option (List (Vec n))
  | 0, st => if d ≤ st.k then some st.basis else none
  | fuel + 1, st =>
      if d ≤ st.k then some st.basis
      else (body em dp d iF st).bind (run em dp d iF fuel)

/-- `bigl2.rs:30`: `η⁻ = (η + 1/2)/2` (binary64 arithmetic idealised over
ℚ). -/
def eta_minus (eta : ℚ) : ℚ := (eta + 1/2) / 2

/-- `bigl2.rs:31`: `δ⁺ = (δ + 1)/2`. -/
def delta_plus (delta : ℚ) : ℚ := (delta + 1) / 2

/-- `bigl2::lattice_reduce(basis, eta, delta)`.  Note: this entry point
performs **no** precondition check on `(η, δ)`. -/
def lattice_reduce {n : ℕ} (eta delta : ℚ) (B : List (Vec n)) (iF oF : ℕ) :
    Option (List (Vec n)) :=
  run (eta_minus eta) (delta_plus delta) B.length iF oF (initState B.length B)

end bigl2

/-! ## Float-flavour comparison points (`src/l2/l2f.rs`, idealised over ℚ) -/

/-- `l2f.rs:50`: the float flavour's Lovász right-hand side **squares** the
Gram–Schmidt coefficient: `r[k][k] + r[k−1][k−1]·μ[k][k−1]²`. -/
def l2fScalarCriterion {n : ℕ} (st : bigl2.State n) : ℚ :=
  mget st.r st.k st.k + mget st.r (st.k - 1) (st.k - 1) * (mget st.mu st.k (st.k - 1)) ^ 2

/-- `l2f.rs:112`: the float flavour's size-reduction trigger uses the
absolute value: `mu[k][index].abs() > eta`. -/
def l2fNeedsReduction {n : ℕ} (em : ℚ) (k : ℕ) (st : bigl2.State n) : Bool :=
  (List.range k).any (fun idx => decide (em < |mget st.mu k idx|))

/-- The precondition assertions shared by `l2/mod.rs:18-19` and
`l2f.rs:24-25`: `0.25 < δ < 1` and `0.5 < η` with `η² < δ`. -/
def checkParams (eta delta : ℚ) : Bool :=
  (decide ((1 : ℚ)/4 < delta) && decide (delta < 1)) &&
    (decide ((1 : ℚ)/2 < eta) && decide (eta * eta < delta))

/-! ## The generic L² engine of `src/l2/mod.rs` (BigNum instantiation)

This engine additionally tracks the `s` vector and a `zeros` counter, and
uses `Matrix::insert` instead of a plain swap. -/

namespace l2

/-- Working state of the generic `l2::lattice_reduce`. -/
structure GState (n : ℕ) where
  basis : List (Vec n)
  gram : List (List ℤ)
  mu : List (List ℚ)
  r : List (List ℚ)
  s : List ℚ
  zeros : ℕ
  kappa : ℕ
deriving DecidableEq

/-- `l2/mod.rs:152-171` (`cfa`): refresh row `i` of the Gram matrix, then
for `j in 0..i` recompute `r[i][j]` and `μ[i][j]`. -/
def cfa {n : ℕ} (i : ℕ) (st : GState n) : GState n :=
  let gram2 := (List.range (i + 1)).foldl (fun g j =>
      mset g i j (Vect.dot (st.basis.getD i 0) (st.basis.getD j 0))) st.gram
  let p2 := (List.range i).foldl (fun (p : List (List ℚ) × List (List ℚ)) j =>
      let rij := (List.range j).foldl
          (fun acc k2 => acc - mget p.1 i k2 * mget p.2 j k2)
          ((mget gram2 i j : ℤ) : ℚ)
      let r2 := mset p.1 i j rij
      (r2, mset p.2 i j (rij / mget r2 j j))) (st.r, st.mu)
  { st with gram := gram2, r := p2.1, mu := p2.2 }

/-- `l2/mod.rs:121-123`: `(0..kappa).rev().all(|i| |μ[kappa][i]| < η)`
(strict comparison, absolute value taken). -/
def allMuSmall {n : ℕ} (em : ℚ) (kappa : ℕ) (st : GState n) : Bool :=
  ((List.range kappa).reverse).all (fun i => decide (|mget st.mu kappa i| < em))

/-- `l2/mod.rs:131-142`: the `for i in (0..kappa).rev()` loop over the
cloned row `m`, translating the basis only when `x_i ≠ 0`. -/
def redLoop {n : ℕ} (kappa : ℕ) (mu : List (List ℚ)) :
    List ℕ → List ℚ × List (Vec n) → List ℚ × List (Vec n)
  | [], p => p
  | i :: rest, p =>
      let x := roundQ (p.1.getD i 0)
      if x ≠ 0 then
        let m2 := (List.range i).foldl
            (fun mm j => mm.set j (mm.getD j 0 - mget mu i j * (x : ℚ))) p.1
        redLoop kappa mu rest (m2, translateCol p.2 kappa i x)
      else redLoop kappa mu rest p

/-- `l2::size_reduce` (`l2/mod.rs:108-150`) with fuel for the
until-all-small loop. -/
def size_reduce {n : ℕ} (em : ℚ) (kappa : ℕ) : ℕ → GState n → Option (GState n)
  | 0, _ => none
  | fuel + 1, st =>
      let st1 := cfa kappa st
      if allMuSmall em kappa st1 then some st1
      else
        let p2 := redLoop kappa st1.mu ((List.range kappa).reverse)
            (st1.mu.getD kappa [], st1.basis)
        let gram2 := (List.range (kappa + 1)).foldl (fun g j =>
            mset g kappa j (Vect.dot (p2.2.getD kappa 0) (p2.2.getD j 0))) st1.gram
        size_reduce em kappa fuel { st1 with basis := p2.2, gram := gram2 }

/-- `l2/mod.rs:51-54`: `s[0] = G[κ][κ]` and
`s[i+1] = s[i] − μ[κ][i]·r[κ][i]` for `i in 0..κ`. -/
def computeS {n : ℕ} (st : GState n) : GState n :=
  let s0 := st.s.set 0 ((mget st.gram st.kappa st.kappa : ℤ) : ℚ)
  { st with s := (List.range st.kappa).foldl (fun s i =>
      s.set (i + 1) (s.getD i 0 - mget st.mu st.kappa i * mget st.r st.kappa i)) s0 }

/-- `l2/mod.rs:60-62`: `while kappa >= 1 && delta_criterion >= s[kappa-1]
{ kappa -= 1 }`. -/
def lowerKappa (dc : ℚ) (s : List ℚ) : ℕ → ℕ
  | 0 => 0
  | k + 1 => if s.getD k 0 ≤ dc then lowerKappa dc s k else k + 1

/-- The branch of `l2/mod.rs:58-90` taken when the Lovász test fails,
with the lowered index `kap2` (the result of the inner `while`) and the
scrutinised sign test `isNeg` passed explicitly: conditional
remove-and-reinsert of column `kappa_prime`, full Gram recompute, then
either `continue` (restore `kappa`, `is_neg` case) or the common tail
`r[κ][κ] = s[κ]; κ += 1` at the lowered index. -/
def failBranchCore {n : ℕ} (d kap2 : ℕ) (isNeg : Bool) (st2 : GState n) :
    GState n :=
  let kp := st2.kappa
  let zeros2 := if isNeg then st2.zeros + 1 else st2.zeros
  let kk := if isNeg then d - zeros2 else kap2
  let st3 := if kk ≠ kp then
      { st2 with basis := insertCol st2.basis kp kk,
                 mu := insertCol st2.mu kp kk,
                 r := insertCol st2.r kp kk }
    else st2
  let st4 := { st3 with gram := computeGram d st3.basis st3.gram, zeros := zeros2 }
  if isNeg then { st4 with kappa := kp }
  else { st4 with r := mset st4.r kap2 kap2 (st2.s.getD kap2 0), kappa := kap2 + 1 }

/-- The Lovász-failure branch with its two scrutinees computed as in the
source: `kappa` lowered by the inner `while`, and
`is_neg = (s[kappa] <= 0)` at the lowered index. -/
def failBranch {n : ℕ} (d : ℕ) (dc : ℚ) (st2 : GState n) : GState n :=
  failBranchCore d (lowerKappa dc st2.s st2.kappa)
    (decide (st2.s.getD (lowerKappa dc st2.s st2.kappa) 0 ≤ 0)) st2

/-- One iteration of the `while kappa < d - zeros` loop
(`l2/mod.rs:45-93`). -/
def body {n : ℕ} (em dp : ℚ) (d iF : ℕ) (st : GState n) : Option (GState n) :=
  (size_reduce em st.kappa iF st).map (fun st1 =>
    let st2 := computeS st1
    let dc := dp * mget st2.r (st2.kappa - 1) (st2.kappa - 1)
    if st2.s.getD (st2.kappa - 1) 0 < dc then failBranch d dc st2
    else
      { st2 with r := mset st2.r st2.kappa st2.kappa (st2.s.getD st2.kappa 0),
                 kappa := st2.kappa + 1 })

/-- Engine entry state (`l2/mod.rs:21-43`). -/
def genInit {n : ℕ} (d : ℕ) (B : List (Vec n)) : GState n :=
  let gram := computeGram d B (zeroMatZ d)
  { basis := B, gram := gram, mu := zeroMatQ d,
    r := mset (zeroMatQ d) 0 0 ((mget gram 0 0 : ℤ) : ℚ),
    s := List.replicate d 0, zeros := 0, kappa := 1 }

/-- The `while kappa < d - zeros` loop with fuel. -/
def genRun {n : ℕ} (em dp : ℚ) (d iF : ℕ) : ℕ → GState n → Option (List (Vec n))
  | 0, st => if d - st.zeros ≤ st.kappa then some st.basis else none
  | fuel + 1, st =>
      if d - st.zeros ≤ st.kappa then some st.basis
      else (body em dp d iF st).bind (genRun em dp d iF fuel)

/-- `l2/mod.rs:38`: `η⁻ = (η + 1/2)/2`. -/
def gen_eta_minus (eta : ℚ) : ℚ := (eta + 1/2) / 2

/-- `l2/mod.rs:39`: `let delta_plus = S::Fraction::from_ext(0.99);` — the
formula `(delta + 1.)/2.` is commented out in the source, and the binary64
literal `0.99` is the dyadic rational `4458563631096791/2^52`. -/
def delta_plus_const : ℚ := 4458563631096791 / 4503599627370496

/-- The internal `δ⁺` of the generic engine as a function of the
caller-supplied `δ`: a constant function. -/
def gen_delta_plus (_delta : ℚ) : ℚ := delta_plus_const

/-- Generic `l2::lattice_reduce` entry: the two `assert!`s of
`l2/mod.rs:18-19` (a failure aborts before any state is allocated or
mutated), then the main loop. -/
def lattice_reduce {n : ℕ} (eta delta : ℚ) (B : List (Vec n)) (iF oF : ℕ) :
    Option (List (Vec n)) :=
  if checkParams eta delta then
    genRun (gen_eta_minus eta) (gen_delta_plus delta) B.length iF oF
      (genInit B.length B)
  else none

/-- `l2/mod.rs:174-179` (`zeros_first`): `while basis[d-1].is_zero()
{ basis.insert(d-1, 0) }`, with `d` read once on entry.  Fuel-driven;
`none` means the loop has not finished. -/
def zfRun {n : ℕ} (d : ℕ) : ℕ → List (Vec n) → Option (List (Vec n))
  | 0, _ => none
  | fuel + 1, B =>
      if Vect.isZero (B.getD (d - 1) 0) then zfRun d fuel (insertCol B (d - 1) 0)
      else some B

/-- `l2/mod.rs:181-185` (`reduction`): two passes of `lattice_reduce`
followed by `zeros_first`. -/
def reduction {n : ℕ} (eta delta : ℚ) (B : List (Vec n))
    (iF1 oF1 iF2 oF2 zF : ℕ) : Option (List (Vec n)) := do
  let B1 ← lattice_reduce eta delta B iF1 oF1
  let B2 ← lattice_reduce eta delta B1 iF2 oF2
  zfRun B2.length zF B2

end l2

/-! ## The zip-based dot products (claim C8's cited code) -/

namespace BigVector

/-- `impl Dot for BigVector` (`src/vector/mod.rs:125-134`): the sum runs
over `self.coefficients.iter().zip(&other.coefficients)` — no dimension
check, silent truncation to the shorter operand. -/
def dot (u v : List ℤ) : ℤ := ((u.zip v).map (fun p => p.1 * p.2)).sum

/-- `Vector::add` (`src/vector/mod.rs:70-80`): `assert_eq!` on the
dimensions (modelled as `none`), then elementwise sum over `0..n`. -/
def add (u v : List ℤ) : Option (List ℤ) :=
  if u.length = v.length then
    some ((List.range u.length).map (fun i => u.getD i 0 + v.getD i 0))
  else none

/-- `Vector::sub` (`src/vector/mod.rs:82-92`), same checked shape. -/
def sub (u v : List ℤ) : Option (List ℤ) :=
  if u.length = v.length then
    some ((List.range u.length).map (fun i => u.getD i 0 - v.getD i 0))
  else none

end BigVector

namespace algebraVector

/-- `Vector::dot` of `src/algebra/vector.rs:92-98`: the same zip-based,
unchecked dot product. -/
def dot (u v : List ℤ) : ℤ := ((u.zip v).map (fun p => p.1 * p.2)).sum

end algebraVector

/-! ## Concrete inputs used in the evaluations below -/

/-- First standard basis column of ℤ². -/
def e0 : Vec 2 := ![1, 0]

/-- Second standard basis column of ℤ². -/
def e1 : Vec 2 := ![0, 1]

/-- The column `(-5, 1)`. -/
def v51 : Vec 2 := ![-5, 1]

/-- The basis `[(1,0), (-5,1)]` on which `bigl2` cycles forever. -/
def cycleBasis : List (Vec 2) := [e0, v51]

/-- The identity basis of ℤ². -/
def idBasis : List (Vec 2) := [e0, e1]

/-- The zero column of ℤ². -/
def z2 : Vec 2 := ![0, 0]

/-- The entry state of `bigl2` on `cycleBasis`. -/
def S0 : bigl2.State 2 := bigl2.initState 2 cycleBasis

/-- The state of `bigl2` on `cycleBasis` at the first Lovász test (after
the first, reduction-free, size-reduction pass). -/
def U0 : bigl2.State 2 := bigl2.updateMuR 1 S0

/-- The `bigl2` state after the first loop iteration (a swap). -/
def SA : bigl2.State 2 := bigl2.swapBranch 2 U0

/-- The state of the second Lovász test. -/
def UA : bigl2.State 2 := bigl2.updateMuR 1 SA

/-- The `bigl2` state after the second loop iteration (the swap back). -/
def SB : bigl2.State 2 := bigl2.swapBranch 2 UA

/-- The state of the third Lovász test. -/
def UB : bigl2.State 2 := bigl2.updateMuR 1 SB

/-! # Helper lemmas -/

lemma vect_sub_mulf {n : ℕ} (a b : Vec n) (c : ℤ) :
    Vect.sub a (Vect.mulf b c) = a - c • b := by
  funext t
  simp [Vect.sub, Vect.mulf, mul_comm]

lemma vect_default_eq_zero {n : ℕ} : (default : Vec n) = 0 := rfl

lemma isZero_iff {n : ℕ} (v : Vec n) : Vect.isZero v = true ↔ v = 0 := by
  simp only [Vect.isZero, decide_eq_true_eq]
  exact Iff.rfl

lemma getD_eq_getElem {α : Type _} (B : List α) (i : ℕ) (d : α)
    (h : i < B.length) : B.getD i d = B[i] := by
  simp [List.getD_eq_getElem?_getD, List.getElem?_eq_getElem h]

lemma spanOf_eq_of_mem_iff {n : ℕ} {B C : List (Vec n)}
    (h : ∀ v, v ∈ B ↔ v ∈ C) : spanOf B = spanOf C := by
  unfold spanOf
  congr 1
  ext v
  exact h v

lemma translateCol_length {n : ℕ} (B : List (Vec n)) (i j : ℕ) (a : ℤ) :
    (translateCol B i j a).length = B.length := by
  simp [translateCol]

lemma swapCols_length {α : Type _} [Inhabited α] (B : List α) (i j : ℕ) :
    (swapCols B i j).length = B.length := by
  simp [swapCols]

lemma mem_swapCols {α : Type _} [Inhabited α] {B : List α} {i j : ℕ}
    (hi : i < B.length) (hj : j < B.length) (v : α) :
    v ∈ swapCols B i j ↔ v ∈ B := by
  unfold swapCols
  constructor
  · intro h
    rcases List.mem_or_eq_of_mem_set h with h1 | rfl
    · rcases List.mem_or_eq_of_mem_set h1 with h2 | rfl
      · exact h2
      · rw [getD_eq_getElem _ _ _ hj]
        exact List.getElem_mem hj
    · rw [getD_eq_getElem _ _ _ hi]
      exact List.getElem_mem hi
  · intro h
    rcases List.mem_iff_getElem.1 h with ⟨t, ht, rfl⟩
    by_cases hti : t = i
    · subst hti
      refine List.mem_iff_getElem.2 ⟨j, by simpa using hj, ?_⟩
      rw [List.getElem_set, if_pos rfl, getD_eq_getElem _ _ _ hi]
    · by_cases htj : t = j
      · subst htj
        refine List.mem_iff_getElem.2 ⟨i, by simpa using hi, ?_⟩
        rw [List.getElem_set, if_neg hti, List.getElem_set,
          if_pos rfl, getD_eq_getElem _ _ _ ht]
      · refine List.mem_iff_getElem.2 ⟨t, by simpa using ht, ?_⟩
        rw [List.getElem_set, if_neg (fun h2 => htj h2.symm), List.getElem_set,
          if_neg (fun h2 => hti h2.symm)]

lemma span_swapCols {n : ℕ} {B : List (Vec n)} {i j : ℕ}
    (hi : i < B.length) (hj : j < B.length) :
    spanOf (swapCols B i j) = spanOf B :=
  spanOf_eq_of_mem_iff (fun v => mem_swapCols hi hj v)

lemma span_translateCol {n : ℕ} {B : List (Vec n)} {i j : ℕ} (a : ℤ)
    (hi : i < B.length) (hj : j < B.length) (hij : i ≠ j) :
    spanOf (translateCol B i j a) = spanOf B := by
  have hbi : B.getD i 0 ∈ B := by
    rw [getD_eq_getElem _ _ _ hi]; exact List.getElem_mem hi
  have hbj : B.getD j 0 ∈ B := by
    rw [getD_eq_getElem _ _ _ hj]; exact List.getElem_mem hj
  apply le_antisymm
  · rw [spanOf, Submodule.span_le]
    intro v hv
    rcases List.mem_or_eq_of_mem_set hv with h1 | rfl
    · exact Submodule.subset_span h1
    · rw [vect_sub_mulf]
      exact sub_mem (Submodule.subset_span hbi)
        (Submodule.smul_mem _ _ (Submodule.subset_span hbj))
  · rw [spanOf, Submodule.span_le]
    intro v hv
    rcases List.mem_iff_getElem.1 hv with ⟨t, ht, rfl⟩
    by_cases hti : t = i
    · subst hti
      have h1 : Vect.sub (B.getD t 0) (Vect.mulf (B.getD j 0) a) ∈
          translateCol B t j a := by
        refine List.mem_iff_getElem.2 ⟨t, by simpa [translateCol] using ht, ?_⟩
        simp only [translateCol]
        rw [List.getElem_set, if_pos rfl]
      have h2 : B.getD j 0 ∈ translateCol B t j a := by
        refine List.mem_iff_getElem.2 ⟨j, by simpa [translateCol] using hj, ?_⟩
        simp only [translateCol]
        rw [List.getElem_set, if_neg hij]
        exact (getD_eq_getElem B j 0 hj).symm
      have h3 : B[t] = (Vect.sub (B.getD t 0) (Vect.mulf (B.getD j 0) a)) +
          a • (B.getD j 0) := by
        rw [vect_sub_mulf, getD_eq_getElem _ _ _ ht, sub_add_cancel]
      rw [h3]
      exact add_mem (Submodule.subset_span h1)
        (Submodule.smul_mem _ _ (Submodule.subset_span h2))
    · apply Submodule.subset_span
      refine List.mem_iff_getElem.2 ⟨t, by simpa [translateCol] using ht, ?_⟩
      simp only [translateCol]
      rw [List.getElem_set, if_neg (fun h2 => hti h2.symm)]

lemma insertIdx_perm_cons {α : Type _} (a : α) :
    ∀ (m : ℕ) (l : List α), m ≤ l.length → (l.insertIdx m a).Perm (a :: l)
  | 0, l, _ => by simp
  | m + 1, [], h => by simp at h
  | m + 1, b :: l, h => by
      simp only [List.insertIdx_succ_cons]
      exact ((insertIdx_perm_cons a m l (by simpa using h)).cons b).trans
        (List.Perm.swap a b l)

lemma perm_cons_eraseIdx {α : Type _} [DecidableEq α] (B : List α) {i : ℕ}
    (h : i < B.length) : B.Perm (B[i] :: B.eraseIdx i) :=
  (List.perm_cons_erase (List.getElem_mem h)).trans
    ((List.erase_getElem h).cons _)

lemma insertCol_perm {α : Type _} [DecidableEq α] [Inhabited α]
    {B : List α} {i j : ℕ} (hi : i < B.length) (hj : j ≤ B.length - 1) :
    (insertCol B i j).Perm B := by
  unfold insertCol
  have hlen : (B.eraseIdx i).length = B.length - 1 := by
    rw [List.length_eraseIdx]
    simp [hi]
  have h1 : ((B.eraseIdx i).insertIdx j (B.getD i default)).Perm
      ((B.getD i default) :: B.eraseIdx i) :=
    insertIdx_perm_cons _ j _ (by omega)
  rw [getD_eq_getElem _ _ _ hi] at h1 ⊢
  exact h1.trans (perm_cons_eraseIdx B hi).symm

lemma insertCol_length {α : Type _} [DecidableEq α] [Inhabited α]
    {B : List α} {i j : ℕ} (hi : i < B.length) (hj : j ≤ B.length - 1) :
    (insertCol B i j).length = B.length :=
  (insertCol_perm hi hj).length_eq

lemma span_insertCol {n : ℕ} {B : List (Vec n)} {i j : ℕ}
    (hi : i < B.length) (hj : j ≤ B.length - 1) :
    spanOf (insertCol B i j) = spanOf B :=
  spanOf_eq_of_mem_iff (fun _ => (insertCol_perm hi hj).mem_iff)

lemma allZero_getD {n : ℕ} {B : List (Vec n)} (h : allZero B) (i : ℕ) :
    B.getD i 0 = 0 := by
  rcases lt_or_ge i B.length with hi | hi
  · rw [getD_eq_getElem _ _ _ hi]
    exact h _ (List.getElem_mem hi)
  · rw [List.getD_eq_getElem?_getD, List.getElem?_eq_none (by omega)]
    rfl

lemma allZero_translateCol {n : ℕ} {B : List (Vec n)} (h : allZero B)
    (i j : ℕ) (a : ℤ) : allZero (translateCol B i j a) := by
  intro v hv
  rcases List.mem_or_eq_of_mem_set hv with h1 | rfl
  · exact h _ h1
  · rw [allZero_getD h, allZero_getD h, vect_sub_mulf]
    simp

lemma allZero_swapCols {n : ℕ} {B : List (Vec n)} (h : allZero B) (i j : ℕ) :
    allZero (swapCols B i j) := by
  intro v hv
  unfold swapCols at hv
  rcases List.mem_or_eq_of_mem_set hv with h1 | rfl
  · rcases List.mem_or_eq_of_mem_set h1 with h2 | rfl
    · exact h _ h2
    · rw [vect_default_eq_zero, allZero_getD h]
  · rw [vect_default_eq_zero, allZero_getD h]

lemma allZero_insertCol {n : ℕ} {B : List (Vec n)} (h : allZero B) (i j : ℕ) :
    allZero (insertCol B i j) := by
  intro v hv
  unfold insertCol at hv
  by_cases hjl : j ≤ (B.eraseIdx i).length
  · rcases (List.mem_insertIdx hjl).1 hv with rfl | h2
    · rw [vect_default_eq_zero, allZero_getD h]
    · exact h _ (List.mem_of_mem_eraseIdx h2)
  · rw [List.insertIdx_of_length_lt _ _ _ (by omega)] at hv
    exact h _ (List.mem_of_mem_eraseIdx hv)

/-! # Classical LLL: sweep structure, bounds, and span preservation -/

lemma sweepInner_eq_spec {n : ℕ} (i : ℕ) :
    ∀ (ks : List ℕ) (B : List (Vec n)),
      lll.sweepInner i ks B = lll.sweepInnerSpec i (ks.map (fun k => i - k)) B
  | [], _ => rfl
  | k :: ks, B => by
      simp only [lll.sweepInner, lll.sweepInnerSpec, List.map_cons]
      cases lll.sweepStep B i (i - k) with
      | none => rfl
      | some B2 => exact sweepInner_eq_spec i ks B2

lemma map_sub_range' : ∀ (m s : ℕ),
    (List.range' s m).map (fun k => s + m - k) = lll.descFrom m
  | 0, _ => rfl
  | m + 1, s => by
      rw [List.range'_succ]
      simp only [List.map_cons, lll.descFrom]
      congr 1
      · omega
      · have h : (fun k => s + (m + 1) - k) = (fun k => (s + 1) + m - k) := by
          funext k; omega
        rw [h]
        exact map_sub_range' m (s + 1)

lemma range'_map_eq_descFrom (i : ℕ) :
    (List.range' 1 (i - 1)).map (fun k => i - k) = lll.descFrom (i - 1) := by
  rcases Nat.eq_zero_or_pos i with rfl | hi
  · rfl
  · have h : (List.range' 1 (i - 1)).map (fun k => i - k) =
        (List.range' 1 (i - 1)).map (fun k => 1 + (i - 1) - k) := by
      apply List.map_congr_left
      intro k hk
      have hk2 := List.mem_range'_1.1 hk
      omega
    rw [h, map_sub_range']

lemma sweepOuter_eq_spec {n : ℕ} :
    ∀ (l : List ℕ) (B : List (Vec n)),
      lll.sweepOuter l B = lll.sweepOuterSpec l B
  | [], _ => rfl
  | i :: rest, B => by
      simp only [lll.sweepOuter, lll.sweepOuterSpec]
      rw [sweepInner_eq_spec, range'_map_eq_descFrom]
      cases lll.sweepInnerSpec i (lll.descFrom (i - 1)) B with
      | none => rfl
      | some B2 => exact sweepOuter_eq_spec rest B2

lemma zero_not_mem_descFrom : ∀ m : ℕ, 0 ∉ lll.descFrom m
  | 0 => by simp [lll.descFrom]
  | m + 1 => by
      simp only [lll.descFrom, List.mem_cons]
      rintro (h | h)
      · omega
      · exact zero_not_mem_descFrom m h

lemma sweepStep_some {n : ℕ} {B : List (Vec n)} {i j : ℕ}
    (hi : i < B.length) (hj : j < B.length) :
    lll.sweepStep B i j = some (B.set i (Vect.sub B[i] (Vect.mulf B[j]
      (roundDiv (Vect.dot B[i] B[j]) (Vect.dot B[j] B[j]))))) := by
  unfold lll.sweepStep
  rw [List.getElem?_eq_getElem hi, List.getElem?_eq_getElem hj]
  rfl

lemma sweepStep_facts {n : ℕ} {B : List (Vec n)} {i j : ℕ}
    (hi : i < B.length) (hj : j < B.length) (hij : i ≠ j) :
    ∃ B2, lll.sweepStep B i j = some B2 ∧ B2.length = B.length ∧
      spanOf B2 = spanOf B := by
  refine ⟨_, sweepStep_some hi hj, by simp, ?_⟩
  have h : B.set i (Vect.sub B[i] (Vect.mulf B[j]
      (roundDiv (Vect.dot B[i] B[j]) (Vect.dot B[j] B[j])))) =
      translateCol B i j (roundDiv (Vect.dot B[i] B[j]) (Vect.dot B[j] B[j])) := by
    rw [translateCol, getD_eq_getElem _ _ _ hi, getD_eq_getElem _ _ _ hj]
  rw [h]
  exact span_translateCol _ hi hj hij

lemma sweepInner_facts {n : ℕ} (i : ℕ) :
    ∀ (ks : List ℕ) (B : List (Vec n)), i < B.length →
      (∀ k ∈ ks, 1 ≤ k ∧ k ≤ i - 1) →
      ∃ B2, lll.sweepInner i ks B = some B2 ∧ B2.length = B.length ∧
        spanOf B2 = spanOf B
  | [], B, _, _ => ⟨B, rfl, rfl, rfl⟩
  | k :: ks, B, hi, hks => by
      obtain ⟨hk1, hk2⟩ := hks k (by simp)
      have hj : i - k < B.length := by omega
      have hij : i ≠ i - k := by omega
      obtain ⟨B2, h2, hlen2, hspan2⟩ := sweepStep_facts hi hj hij
      obtain ⟨B3, h3, hlen3, hspan3⟩ := sweepInner_facts i ks B2 (by omega)
        (fun t ht => hks t (List.mem_cons_of_mem _ ht))
      refine ⟨B3, ?_, by omega, hspan3.trans hspan2⟩
      simp only [lll.sweepInner, h2]
      exact h3

lemma sweepOuter_facts {n : ℕ} :
    ∀ (l : List ℕ) (B : List (Vec n)), (∀ i ∈ l, i < B.length) →
      ∃ B2, lll.sweepOuter l B = some B2 ∧ B2.length = B.length ∧
        spanOf B2 = spanOf B
  | [], B, _ => ⟨B, rfl, rfl, rfl⟩
  | i :: rest, B, hl => by
      have hi : i < B.length := hl i (by simp)
      obtain ⟨B2, h2, hlen2, hspan2⟩ := sweepInner_facts i (List.range' 1 (i - 1)) B hi
        (fun k hk => by
          have hk2 := List.mem_range'_1.1 hk
          omega)
      obtain ⟨B3, h3, hlen3, hspan3⟩ := sweepOuter_facts rest B2
        (fun t ht => by
          have := hl t (List.mem_cons_of_mem _ ht)
          omega)
      refine ⟨B3, ?_, by omega, hspan3.trans hspan2⟩
      simp only [lll.sweepOuter, h2]
      exact h3

lemma lovaszLoop_facts {n : ℕ} :
    ∀ (l : List ℕ) (B : List (Vec n)), (∀ i ∈ l, i + 1 < B.length) →
      ∃ p, lll.lovaszLoop l B = some p ∧ p.1.length = B.length ∧
        spanOf p.1 = spanOf B
  | [], B, _ => ⟨(B, false), rfl, rfl, rfl⟩
  | i :: rest, B, hl => by
      have hi1 : i + 1 < B.length := hl i (by simp)
      have hi : i < B.length := by omega
      simp only [lll.lovaszLoop]
      rw [List.getElem?_eq_getElem hi, List.getElem?_eq_getElem hi1]
      simp only [Option.pure_def, Option.bind_eq_bind, Option.some_bind]
      split
      · exact ⟨_, rfl, swapCols_length _ _ _, span_swapCols hi hi1⟩
      · exact lovaszLoop_facts rest B (fun t ht => hl t (List.mem_cons_of_mem _ ht))

lemma pass_facts {n : ℕ} {d : ℕ} (B : List (Vec n)) (hlen : B.length = d)
    (hd : d ≠ 0) :
    ∃ p, lll.pass d B = some p ∧ p.1.length = d ∧ spanOf p.1 = spanOf B := by
  obtain ⟨B1, h1, hlen1, hspan1⟩ := sweepOuter_facts (List.range d) B
    (fun i hi => by rw [hlen]; exact List.mem_range.1 hi)
  unfold lll.pass lll.sweep
  rw [h1]
  simp only [usizeSub1, if_neg hd, Option.some_bind]
  obtain ⟨p, h2, hlen2, hspan2⟩ := lovaszLoop_facts (List.range (d - 1)) B1
    (fun i hi => by
      have := List.mem_range.1 hi
      omega)
  exact ⟨p, h2, by omega, hspan2.trans hspan1⟩

lemma loop_facts {n : ℕ} {d : ℕ} (hd : d ≠ 0) :
    ∀ (fuel : ℕ) (B : List (Vec n)), B.length = d →
      lll.loop d fuel B ≠ none ∧
      ∀ B2, lll.loop d fuel B = some (some B2) →
        spanOf B2 = spanOf B ∧ B2.length = d
  | 0, B, _ => by
      constructor
      · simp [lll.loop]
      · intro B2 h
        simp [lll.loop] at h
  | fuel + 1, B, hlen => by
      obtain ⟨p, hp, hplen, hpspan⟩ := pass_facts B hlen hd
      rcases p with ⟨B1, b⟩
      cases b
      · constructor
        · simp [lll.loop, hp]
        · intro B2 h
          simp only [lll.loop, hp, Option.some_inj] at h
          rw [← h]
          exact ⟨hpspan, hplen⟩
      · obtain ⟨ih1, ih2⟩ := loop_facts hd fuel B1 hplen
        constructor
        · simp only [lll.loop, hp]
          exact ih1
        · intro B2 h
          simp only [lll.loop, hp] at h
          obtain ⟨hspan2, hlen2⟩ := ih2 B2 h
          exact ⟨hspan2.trans hpspan, hlen2⟩

lemma lll_run_span {n : ℕ} {fuel : ℕ} {B B2 : List (Vec n)}
    (h : lll.lattice_reduce fuel B = some (some B2)) : spanOf B2 = spanOf B := by
  by_cases hB : B = []
  · subst hB
    cases fuel with
    | zero => simp [lll.lattice_reduce, lll.loop] at h
    | succ m =>
        have h0 : lll.lattice_reduce (m + 1) ([] : List (Vec n)) = none := rfl
        rw [h0] at h
        exact absurd h (by simp)
  · have hd : B.length ≠ 0 := by
      simpa using hB
    exact ((loop_facts hd fuel B rfl).2 B2 h).1

/-! # Literal-list evaluation lemmas

Structural (arithmetic-free) reductions used to evaluate the engines on
concrete two-column bases. -/

lemma list_replicate_two {α : Type _} (x : α) : List.replicate 2 x = [x, x] := rfl

lemma list_set2_zero {α : Type _} (a b x : α) : [a, b].set 0 x = [x, b] := rfl

lemma list_set2_one {α : Type _} (a b x : α) : [a, b].set 1 x = [a, x] := rfl

lemma list_getD2_zero {α : Type _} (a b d : α) : [a, b].getD 0 d = a := rfl

lemma list_getD2_one {α : Type _} (a b d : α) : [a, b].getD 1 d = b := rfl

lemma list_getD_nil {α : Type _} (i : ℕ) (d : α) : ([] : List α).getD i d = d := by
  cases i <;> rfl

lemma list_range_two : List.range 2 = [0, 1] := rfl

lemma list_range_one : List.range 1 = [0] := rfl

lemma list_range_zero : List.range 0 = [] := rfl

/-! # The `bigl2` engine: structural invariants -/

lemma bigl2_foldl_basis {n : ℕ} {σ : Type _} (f : bigl2.State n → σ → bigl2.State n)
    (hf : ∀ st a, (f st a).basis = st.basis) :
    ∀ (l : List σ) (st : bigl2.State n), (l.foldl f st).basis = st.basis
  | [], _ => rfl
  | a :: l, st => by
      rw [List.foldl_cons, bigl2_foldl_basis f hf l (f st a), hf]

lemma bigl2_foldl_k {n : ℕ} {σ : Type _} (f : bigl2.State n → σ → bigl2.State n)
    (hf : ∀ st a, (f st a).k = st.k) :
    ∀ (l : List σ) (st : bigl2.State n), (l.foldl f st).k = st.k
  | [], _ => rfl
  | a :: l, st => by
      rw [List.foldl_cons, bigl2_foldl_k f hf l (f st a), hf]

lemma updateMuR_basis {n : ℕ} (k : ℕ) (st : bigl2.State n) :
    (bigl2.updateMuR k st).basis = st.basis := by
  unfold bigl2.updateMuR
  apply bigl2_foldl_basis
  intro st a
  rfl

lemma updateMuR_k {n : ℕ} (k : ℕ) (st : bigl2.State n) :
    (bigl2.updateMuR k st).k = st.k := by
  unfold bigl2.updateMuR
  apply bigl2_foldl_k
  intro st a
  rfl

lemma reduceLoop_facts {n : ℕ} (k d : ℕ) :
    ∀ (l : List ℕ) (st : bigl2.State n), (∀ i ∈ l, i < k) → k < st.basis.length →
      (bigl2.reduceLoop k d l st).basis.length = st.basis.length ∧
      spanOf (bigl2.reduceLoop k d l st).basis = spanOf st.basis ∧
      (bigl2.reduceLoop k d l st).k = st.k
  | [], _, _, _ => ⟨rfl, rfl, rfl⟩
  | i :: rest, st, hl, hk => by
      have hik : i < k := hl i (by simp)
      have hb : (bigl2.reduceStep k d st i).basis =
          translateCol st.basis k i (roundQ (mget st.mu k i)) := rfl
      have hlen1 : (bigl2.reduceStep k d st i).basis.length = st.basis.length := by
        rw [hb, translateCol_length]
      obtain ⟨h1, h2, h3⟩ := reduceLoop_facts k d rest (bigl2.reduceStep k d st i)
        (fun t ht => hl t (List.mem_cons_of_mem _ ht)) (by omega)
      refine ⟨by rw [bigl2.reduceLoop, h1, hlen1], ?_, by rw [bigl2.reduceLoop, h3]; rfl⟩
      rw [bigl2.reduceLoop, h2, hb]
      exact span_translateCol _ hk (by omega) (by omega)

lemma bigl2_size_reduce_facts {n : ℕ} (em : ℚ) (k d : ℕ) :
    ∀ (fuel : ℕ) (st st2 : bigl2.State n), k < st.basis.length →
      bigl2.size_reduce em k d fuel st = some st2 →
      st2.basis.length = st.basis.length ∧ spanOf st2.basis = spanOf st.basis ∧
        st2.k = st.k
  | 0, st, st2, _, h => by simp [bigl2.size_reduce] at h
  | fuel + 1, st, st2, hk, h => by
      rw [bigl2.size_reduce] at h
      by_cases hb : bigl2.needsReduction em k (bigl2.updateMuR k st) = true
      · rw [if_pos hb] at h
        have hup : (bigl2.updateMuR k st).basis = st.basis := updateMuR_basis k st
        obtain ⟨hl1, hs1, hk1⟩ := reduceLoop_facts k d ((List.range k).reverse)
          (bigl2.updateMuR k st)
          (fun i hi => by
            have := List.mem_range.1 (List.mem_reverse.1 hi)
            omega)
          (by rw [hup]; exact hk)
        obtain ⟨hl2, hs2, hk2⟩ := bigl2_size_reduce_facts em k d fuel _ st2
          (by rw [hl1, hup]; exact hk) h
        refine ⟨by rw [hl2, hl1, hup], ?_, by rw [hk2, hk1, updateMuR_k]⟩
        rw [hs2, hs1, hup]
      · rw [if_neg hb] at h
        obtain rfl : bigl2.updateMuR k st = st2 := by
          simpa using h
        exact ⟨by rw [updateMuR_basis], by rw [updateMuR_basis], updateMuR_k k st⟩

lemma swapBranch_basis {n : ℕ} (d : ℕ) (st : bigl2.State n) :
    (bigl2.swapBranch d st).basis = swapCols st.basis st.k (st.k - 1) := rfl

lemma swapBranch_k {n : ℕ} (d : ℕ) (st : bigl2.State n) :
    (bigl2.swapBranch d st).k = max 1 (st.k - 1) := rfl

lemma bigl2_body_facts {n : ℕ} {em dp : ℚ} {d iF : ℕ} {st st2 : bigl2.State n}
    (hk1 : 1 ≤ st.k) (hk : st.k < st.basis.length)
    (h : bigl2.body em dp d iF st = some st2) :
    st2.basis.length = st.basis.length ∧ spanOf st2.basis = spanOf st.basis ∧
      1 ≤ st2.k := by
  rw [bigl2.body] at h
  cases hsr : bigl2.size_reduce em st.k d iF st with
  | none => rw [hsr] at h; simp at h
  | some st1 =>
      rw [hsr] at h
      simp only [Option.map_some'] at h
      obtain ⟨hl1, hs1, hkk1⟩ := bigl2_size_reduce_facts em st.k d iF st st1 hk hsr
      by_cases hadv : bigl2.advanceCond dp st1 = true
      · rw [if_pos hadv] at h
        obtain rfl : ({ st1 with k := st1.k + 1 } : bigl2.State n) = st2 := by
          simpa using h
        exact ⟨hl1, hs1, by simp⟩
      · rw [if_neg hadv] at h
        obtain rfl : bigl2.swapBranch d st1 = st2 := by simpa using h
        refine ⟨?_, ?_, ?_⟩
        · rw [swapBranch_basis, swapCols_length, hl1]
        · rw [swapBranch_basis]
          have h1 : st1.k < st1.basis.length := by omega
          have h2 : st1.k - 1 < st1.basis.length := by omega
          rw [span_swapCols h1 h2, hs1]
        · rw [swapBranch_k]
          omega

lemma bigl2_run_span {n : ℕ} {em dp : ℚ} {d iF : ℕ} :
    ∀ (fuel : ℕ) (st : bigl2.State n) (B2 : List (Vec n)),
      1 ≤ st.k → st.basis.length = d →
      bigl2.run em dp d iF fuel st = some B2 →
      spanOf B2 = spanOf st.basis
  | 0, st, B2, _, _, h => by
      rw [bigl2.run] at h
      by_cases hd : d ≤ st.k
      · rw [if_pos hd] at h
        obtain rfl : st.basis = B2 := by simpa using h
        rfl
      · rw [if_neg hd] at h
        simp at h
  | fuel + 1, st, B2, hk1, hlen, h => by
      rw [bigl2.run] at h
      by_cases hd : d ≤ st.k
      · rw [if_pos hd] at h
        obtain rfl : st.basis = B2 := by simpa using h
        rfl
      · rw [if_neg hd] at h
        cases hbody : bigl2.body em dp d iF st with
        | none => rw [hbody] at h; simp at h
        | some st1 =>
            rw [hbody] at h
            simp only [Option.some_bind] at h
            obtain ⟨hl1, hs1, hkk1⟩ := bigl2_body_facts hk1 (by omega) hbody
            have := bigl2_run_span fuel st1 B2 hkk1 (by omega) h
            rw [this, hs1]

lemma bigl2_reduce_span {n : ℕ} {eta delta : ℚ} {B B2 : List (Vec n)}
    {iF oF : ℕ} (h : bigl2.lattice_reduce eta delta B iF oF = some B2) :
    spanOf B2 = spanOf B := by
  unfold bigl2.lattice_reduce at h
  exact bigl2_run_span oF (bigl2.initState B.length B) B2 (by exact le_refl 1)
    rfl h

/-! # The `bigl2` two-cycle on the basis `[(1,0), (-5,1)]`

The states `S0 → SA → SB → SA → …` are evaluated to literal form once, and
the branch decisions of the engine are settled parametrically in the
thresholds `η⁻ > 0`, `δ⁺ > 0`. -/

lemma U0_eval : U0 = ⟨[e0, v51], [[1, 0], [-5, 26]], [[0, 0], [-5, 1]],
    [[1, 0], [-5, 1]], 1⟩ := by
  norm_num [U0, S0, bigl2.updateMuR, bigl2.initState, computeGram, mget, mset,
    zeroMatQ, zeroMatZ, cycleBasis, Vect.dot, Fin.sum_univ_two, e0, v51,
    Matrix.cons_val_zero, Matrix.cons_val_one, Matrix.head_cons,
    list_replicate_two, list_set2_zero, list_set2_one, list_getD2_zero,
    list_getD2_one, list_getD_nil, list_range_two, list_range_one,
    list_range_zero, bigl2.State.mk.injEq]

lemma SA_eval : SA = ⟨[v51, e0], [[26, 0], [-5, 1]], [[1, 0], [-5/26, 1]],
    [[26, 0], [-5, 801/676]], 1⟩ := by
  have h : SA = bigl2.swapBranch 2 U0 := rfl
  rw [h, U0_eval]
  norm_num [bigl2.swapBranch, swapCols, mget, mset, Vect.dot, Fin.sum_univ_two,
    e0, v51, Matrix.cons_val_zero, Matrix.cons_val_one, Matrix.head_cons,
    list_replicate_two, list_set2_zero, list_set2_one, list_getD2_zero,
    list_getD2_one, list_getD_nil, list_range_two, list_range_one,
    list_range_zero, bigl2.State.mk.injEq]

lemma UA_eval : UA = ⟨[v51, e0], [[26, 0], [-5, 1]], [[1, 0], [-5/26, 1]],
    [[26, 0], [-5, 1/26]], 1⟩ := by
  have h : UA = bigl2.updateMuR 1 SA := rfl
  rw [h, SA_eval]
  norm_num [bigl2.updateMuR, mget, mset, Vect.dot, Fin.sum_univ_two, e0, v51,
    Matrix.cons_val_zero, Matrix.cons_val_one, Matrix.head_cons,
    list_replicate_two, list_set2_zero, list_set2_one, list_getD2_zero,
    list_getD2_one, list_getD_nil, list_range_two, list_range_one,
    list_range_zero, bigl2.State.mk.injEq]

lemma SB_eval : SB = ⟨[e0, v51], [[1, 0], [-5, 26]], [[1, 0], [-5, 1]],
    [[1, 0], [-5, 151]], 1⟩ := by
  have h : SB = bigl2.swapBranch 2 UA := rfl
  rw [h, UA_eval]
  norm_num [bigl2.swapBranch, swapCols, mget, mset, Vect.dot, Fin.sum_univ_two,
    e0, v51, Matrix.cons_val_zero, Matrix.cons_val_one, Matrix.head_cons,
    list_replicate_two, list_set2_zero, list_set2_one, list_getD2_zero,
    list_getD2_one, list_getD_nil, list_range_two, list_range_one,
    list_range_zero, bigl2.State.mk.injEq]

lemma UB_eval : UB = ⟨[e0, v51], [[1, 0], [-5, 26]], [[1, 0], [-5, 1]],
    [[1, 0], [-5, 1]], 1⟩ := by
  have h : UB = bigl2.updateMuR 1 SB := rfl
  rw [h, SB_eval]
  norm_num [bigl2.updateMuR, mget, mset, Vect.dot, Fin.sum_univ_two, e0, v51,
    Matrix.cons_val_zero, Matrix.cons_val_one, Matrix.head_cons,
    list_replicate_two, list_set2_zero, list_set2_one, list_getD2_zero,
    list_getD2_one, list_getD_nil, list_range_two, list_range_one,
    list_range_zero, bigl2.State.mk.injEq]

lemma cycle_close : bigl2.swapBranch 2 UB = SA := by
  rw [UB_eval, SA_eval]
  norm_num [bigl2.swapBranch, swapCols, mget, mset, Vect.dot, Fin.sum_univ_two,
    e0, v51, Matrix.cons_val_zero, Matrix.cons_val_one, Matrix.head_cons,
    list_replicate_two, list_set2_zero, list_set2_one, list_getD2_zero,
    list_getD2_one, list_getD_nil, list_range_two, list_range_one,
    list_range_zero, bigl2.State.mk.injEq]

lemma needsRed_U0 {em : ℚ} (hem : 0 < em) :
    bigl2.needsReduction em 1 U0 = false := by
  rw [U0_eval]
  simp only [bigl2.needsReduction, list_range_one, List.any_cons, List.any_nil,
    mget, list_getD2_one, list_getD2_zero, Bool.or_false,
    decide_eq_false_iff_not]
  intro hlt
  linarith

lemma needsRed_UA {em : ℚ} (hem : 0 < em) :
    bigl2.needsReduction em 1 UA = false := by
  rw [UA_eval]
  simp only [bigl2.needsReduction, list_range_one, List.any_cons, List.any_nil,
    mget, list_getD2_one, list_getD2_zero, Bool.or_false,
    decide_eq_false_iff_not]
  intro hlt
  linarith

lemma needsRed_UB {em : ℚ} (hem : 0 < em) :
    bigl2.needsReduction em 1 UB = false := by
  rw [UB_eval]
  simp only [bigl2.needsReduction, list_range_one, List.any_cons, List.any_nil,
    mget, list_getD2_one, list_getD2_zero, Bool.or_false,
    decide_eq_false_iff_not]
  intro hlt
  linarith

lemma adv_U0 {dp : ℚ} (hdp : 0 < dp) : bigl2.advanceCond dp U0 = false := by
  have h : ¬ (bigl2.deltaCriterion dp U0 < bigl2.scalarCriterion U0) := by
    rw [U0_eval]
    simp only [bigl2.deltaCriterion, bigl2.scalarCriterion, mget,
      Nat.sub_self, list_getD2_zero, list_getD2_one, list_getD_nil]
    intro hlt
    nlinarith [hdp]
  unfold bigl2.advanceCond
  exact decide_eq_false h

lemma adv_UA {dp : ℚ} (hdp : 0 < dp) : bigl2.advanceCond dp UA = false := by
  have h : ¬ (bigl2.deltaCriterion dp UA < bigl2.scalarCriterion UA) := by
    rw [UA_eval]
    simp only [bigl2.deltaCriterion, bigl2.scalarCriterion, mget,
      Nat.sub_self, list_getD2_zero, list_getD2_one, list_getD_nil]
    intro hlt
    nlinarith [hdp]
  unfold bigl2.advanceCond
  exact decide_eq_false h

lemma adv_UB {dp : ℚ} (hdp : 0 < dp) : bigl2.advanceCond dp UB = false := by
  have h : ¬ (bigl2.deltaCriterion dp UB < bigl2.scalarCriterion UB) := by
    rw [UB_eval]
    simp only [bigl2.deltaCriterion, bigl2.scalarCriterion, mget,
      Nat.sub_self, list_getD2_zero, list_getD2_one, list_getD_nil]
    intro hlt
    nlinarith [hdp]
  unfold bigl2.advanceCond
  exact decide_eq_false h

lemma size_reduce_of_not_needs {n : ℕ} {em : ℚ} {k d : ℕ}
    {st : bigl2.State n} (m : ℕ)
    (h : bigl2.needsReduction em k (bigl2.updateMuR k st) = false) :
    bigl2.size_reduce em k d (m + 1) st = some (bigl2.updateMuR k st) := by
  simp [bigl2.size_reduce, h]

lemma body_S0 {em dp : ℚ} (hem : 0 < em) (hdp : 0 < dp) (m : ℕ) :
    bigl2.body em dp 2 (m + 1) S0 = some SA := by
  unfold bigl2.body
  rw [show S0.k = 1 from rfl, size_reduce_of_not_needs m (needsRed_U0 hem)]
  have hU : bigl2.updateMuR 1 S0 = U0 := rfl
  rw [hU]
  simp only [Option.map_some']
  rw [adv_U0 hdp]
  rfl

lemma body_SA {em dp : ℚ} (hem : 0 < em) (hdp : 0 < dp) (m : ℕ) :
    bigl2.body em dp 2 (m + 1) SA = some SB := by
  unfold bigl2.body
  rw [show SA.k = 1 by rw [SA_eval], size_reduce_of_not_needs m (needsRed_UA hem)]
  have hU : bigl2.updateMuR 1 SA = UA := rfl
  rw [hU]
  simp only [Option.map_some']
  rw [adv_UA hdp]
  rfl

lemma body_SB {em dp : ℚ} (hem : 0 < em) (hdp : 0 < dp) (m : ℕ) :
    bigl2.body em dp 2 (m + 1) SB = some SA := by
  unfold bigl2.body
  rw [show SB.k = 1 by rw [SB_eval], size_reduce_of_not_needs m (needsRed_UB hem)]
  have hU : bigl2.updateMuR 1 SB = UB := rfl
  rw [hU]
  simp only [Option.map_some']
  rw [adv_UB hdp]
  show some (bigl2.swapBranch 2 UB) = some SA
  rw [cycle_close]

lemma run_cycle {em dp : ℚ} (hem : 0 < em) (hdp : 0 < dp) :
    ∀ (fuel iF : ℕ) (st : bigl2.State 2), st = SA ∨ st = SB →
      bigl2.run em dp 2 iF fuel st = none
  | 0, iF, st, h => by
      have hk : st.k = 1 := by
        rcases h with rfl | rfl
        · rw [SA_eval]
        · rw [SB_eval]
      rw [bigl2.run, hk]
      rfl
  | fuel + 1, iF, st, h => by
      have hk : st.k = 1 := by
        rcases h with rfl | rfl
        · rw [SA_eval]
        · rw [SB_eval]
      rw [bigl2.run, hk]
      show (bigl2.body em dp 2 iF st).bind (bigl2.run em dp 2 iF fuel) = none
      cases iF with
      | zero =>
          have hb : bigl2.body em dp 2 0 st = none := by
            unfold bigl2.body
            rw [show bigl2.size_reduce em st.k 2 0 st = none from rfl]
            rfl
          rw [hb]
          rfl
      | succ m =>
          rcases h with rfl | rfl
          · rw [body_SA hem hdp m]
            show bigl2.run em dp 2 (m + 1) fuel SB = none
            exact run_cycle hem hdp fuel (m + 1) SB (Or.inr rfl)
          · rw [body_SB hem hdp m]
            show bigl2.run em dp 2 (m + 1) fuel SA = none
            exact run_cycle hem hdp fuel (m + 1) SA (Or.inl rfl)

lemma run_S0 {em dp : ℚ} (hem : 0 < em) (hdp : 0 < dp) :
    ∀ (oF iF : ℕ), bigl2.run em dp 2 iF oF S0 = none
  | 0, iF => by
      rw [bigl2.run, show S0.k = 1 from rfl]
      rfl
  | oF + 1, iF => by
      rw [bigl2.run, show S0.k = 1 from rfl]
      show (bigl2.body em dp 2 iF S0).bind (bigl2.run em dp 2 iF oF) = none
      cases iF with
      | zero =>
          have hb : bigl2.body em dp 2 0 S0 = none := by
            unfold bigl2.body
            rw [show bigl2.size_reduce em S0.k 2 0 S0 = none from rfl]
            rfl
          rw [hb]
          rfl
      | succ m =>
          rw [body_S0 hem hdp m]
          show bigl2.run em dp 2 (m + 1) oF SA = none
          exact run_cycle hem hdp oF (m + 1) SA (Or.inl rfl)

/-- Claim C2 (code bug): the arbitrary-precision L² engine does **not**
terminate on every integer basis.  For every η > 1/2 and δ > 1/4 (in
particular for all parameters the specification allows),
`bigl2::lattice_reduce` on the basis `[(1,0), (-5,1)]` never leaves its
main loop, whatever fuel is granted to the outer loop and to the
`size_reduce` recursion: after one iteration it enters the two-cycle
`SA → SB → SA → …` of swaps, because the signed size-reduction check never
fires on `μ = −5` and the unsquared Lovász right-hand side is negative. -/
theorem bigl2_lattice_reduce_diverges_on_cycleBasis (eta delta : ℚ)
    (he : 1/2 < eta) (hd : 1/4 < delta) :
    ∀ (oF iF : ℕ), bigl2.lattice_reduce eta delta cycleBasis iF oF = none := by
  intro oF iF
  have hem : 0 < bigl2.eta_minus eta := by
    unfold bigl2.eta_minus
    linarith
  have hdp : 0 < bigl2.delta_plus delta := by
    unfold bigl2.delta_plus
    linarith
  unfold bigl2.lattice_reduce
  have hlen : cycleBasis.length = 2 := rfl
  rw [hlen]
  exact run_S0 hem hdp oF iF

/-- Witness for C2: at η = 0.6, δ = 0.95 (legal parameters) and concrete
fuels, the engine reports no result. -/
theorem bigl2_lattice_reduce_diverges_witness :
    bigl2.lattice_reduce (3/5) (19/20) cycleBasis 1 5 = none :=
  bigl2_lattice_reduce_diverges_on_cycleBasis (3/5) (19/20) (by norm_num)
    (by norm_num) 5 1

/-- Claim C3 (code bug): at the reachable state `U0` (first Lovász test on
the basis `[(1,0), (-5,1)]`, where `μ[1][0] = −5`, `r[0][0] = 1`,
`r[1][1] = 1`), the BigNum flavour computes the right-hand side
`r[k][k] + μ[k][k−1]·r[k−1][k−1] = −4` (coefficient unsquared), while the
float flavour's squared form yields `26`; with δ⁺ = 39/40 the BigNum
engine therefore swaps where the claimed test would advance `k`. -/
theorem bigl2_lovasz_rhs_unsquared_at_U0 :
    bigl2.scalarCriterion U0 = -4 ∧ l2fScalarCriterion U0 = 26 ∧
    bigl2.advanceCond (39/40) U0 = false ∧
    bigl2.deltaCriterion (39/40) U0 < l2fScalarCriterion U0 := by
  refine ⟨?_, ?_, adv_U0 (by norm_num), ?_⟩
  · rw [U0_eval]
    norm_num [bigl2.scalarCriterion, mget, Nat.sub_self, list_getD2_zero,
      list_getD2_one, list_getD_nil]
  · rw [U0_eval]
    norm_num [l2fScalarCriterion, mget, Nat.sub_self, list_getD2_zero,
      list_getD2_one, list_getD_nil]
  · rw [U0_eval]
    norm_num [bigl2.deltaCriterion, l2fScalarCriterion, mget, Nat.sub_self,
      list_getD2_zero, list_getD2_one, list_getD_nil]

/-- Claim C5 (code bug): `bigl2::size_reduce` returns although
`|μ[1][0]| = 5` far exceeds η⁻ = 11/20, because its trigger compares the
signed `μ` with η⁻ (`mu[k][index] > eta`); the float flavour's check
(`mu[k][index].abs() > eta`), like the specification, would demand another
reduction pass. -/
theorem bigl2_size_reduce_ignores_negative_mu :
    bigl2.size_reduce (11/20) 1 2 1 S0 = some U0 ∧
    U0.basis = cycleBasis ∧
    mget U0.mu 1 0 = -5 ∧
    bigl2.needsReduction (11/20) 1 U0 = false ∧
    l2fNeedsReduction (11/20) 1 U0 = true := by
  refine ⟨size_reduce_of_not_needs 0 (needsRed_U0 (by norm_num)),
    (updateMuR_basis 1 S0).trans rfl, ?_, needsRed_U0 (by norm_num), ?_⟩
  · rw [U0_eval]
    rfl
  · rw [U0_eval]
    norm_num [l2fNeedsReduction, mget, list_range_one, list_getD2_zero,
      list_getD2_one, list_getD_nil]

/-- The state of `bigl2` on the identity basis at the first Lovász test. -/
lemma VI0_eval : bigl2.updateMuR 1 (bigl2.initState 2 idBasis) =
    ⟨[e0, e1], [[1, 0], [0, 1]], [[0, 0], [0, 1]], [[1, 0], [0, 1]], 1⟩ := by
  norm_num [bigl2.updateMuR, bigl2.initState, computeGram, mget, mset,
    zeroMatQ, zeroMatZ, idBasis, Vect.dot, Fin.sum_univ_two, e0, e1,
    Matrix.cons_val_zero, Matrix.cons_val_one, Matrix.head_cons,
    list_replicate_two, list_set2_zero, list_set2_one, list_getD2_zero,
    list_getD2_one, list_getD_nil, list_range_two, list_range_one,
    list_range_zero, bigl2.State.mk.injEq]

lemma needsRed_VI0 :
    bigl2.needsReduction (9/20) 1 (bigl2.updateMuR 1 (bigl2.initState 2 idBasis)) =
      false := by
  rw [VI0_eval]
  simp only [bigl2.needsReduction, list_range_one, List.any_cons, List.any_nil,
    mget, list_getD2_one, list_getD2_zero, Bool.or_false,
    decide_eq_false_iff_not]
  norm_num

lemma adv_VI0 :
    bigl2.advanceCond (21/20) (bigl2.updateMuR 1 (bigl2.initState 2 idBasis)) =
      false := by
  rw [VI0_eval]
  unfold bigl2.advanceCond
  apply decide_eq_false
  simp only [bigl2.deltaCriterion, bigl2.scalarCriterion, mget,
    Nat.sub_self, list_getD2_zero, list_getD2_one, list_getD_nil]
  norm_num

lemma body_idBasis_eval :
    bigl2.body (bigl2.eta_minus (2/5)) (bigl2.delta_plus (11/10)) 2 1
      (bigl2.initState 2 idBasis) = some (bigl2.swapBranch 2
        (bigl2.updateMuR 1 (bigl2.initState 2 idBasis))) := by
  have hem : bigl2.eta_minus (2/5) = 9/20 := by norm_num [bigl2.eta_minus]
  have hdp : bigl2.delta_plus (11/10) = 21/20 := by norm_num [bigl2.delta_plus]
  rw [hem, hdp]
  unfold bigl2.body
  rw [show (bigl2.initState 2 idBasis).k = 1 from rfl,
    size_reduce_of_not_needs 0 needsRed_VI0]
  simp only [Option.map_some']
  rw [adv_VI0]
  rfl

/-- Counterexample to claim C4: with η = 0.4, δ = 1.1 the shared
precondition check fails (this is what the float flavour and the generic
engine assert), yet the BigNum entry point `bigl2::lattice_reduce` runs
unchecked: its first loop iteration already swaps the two columns of the
identity basis, so the basis is mutated without any precondition
failure. -/
theorem bigl2_no_precondition_check_counterexample :
    checkParams (2/5) (11/10) = false ∧
    (bigl2.body (bigl2.eta_minus (2/5)) (bigl2.delta_plus (11/10)) 2 1
      (bigl2.initState 2 idBasis)).map bigl2.State.basis = some [e1, e0] ∧
    ([e1, e0] : List (Vec 2)) ≠ idBasis := by
  refine ⟨?_, ?_, by decide⟩
  · norm_num [checkParams]
  · rw [body_idBasis_eval]
    simp only [Option.map_some']
    rw [swapBranch_basis, VI0_eval]
    rfl

/-- Amended claim C4: the generic engine (and the float flavour, which
carries the identical `assert!`s) fails the precondition check fatally on
entry — before any state is allocated or mutated — whenever η ≤ 1/2,
δ ≤ 1/4, δ ≥ 1 or δ ≤ η²; the `bigl2` BigNum entry point performs no
such check. -/
theorem l2_precondition_check_amended :
    (∀ (n : ℕ) (eta delta : ℚ) (B : List (Vec n)) (iF oF : ℕ),
      checkParams eta delta = false →
      l2.lattice_reduce eta delta B iF oF = none) ∧
    (∀ eta delta : ℚ,
      (eta ≤ 1/2 ∨ delta ≤ 1/4 ∨ 1 ≤ delta ∨ delta ≤ eta * eta) →
      checkParams eta delta = false) := by
  constructor
  · intro n eta delta B iF oF h
    unfold l2.lattice_reduce
    rw [h]
    rfl
  · intro eta delta h
    unfold checkParams
    rcases h with h | h | h | h <;>
      simp only [Bool.and_eq_false_iff, decide_eq_false_iff_not, not_lt] <;>
      tauto

/-- Witness for the amended claim C4. -/
theorem l2_precondition_check_amended_witness :
    l2.lattice_reduce (2/5) (11/10) idBasis 3 3 = none ∧
    checkParams (2/5) (11/10) = false := by
  constructor
  · exact l2_precondition_check_amended.1 2 (2/5) (11/10) idBasis 3 3
      (l2_precondition_check_amended.2 (2/5) (11/10) (Or.inr (Or.inr
        (Or.inl (by norm_num)))))
  · exact l2_precondition_check_amended.2 (2/5) (11/10) (Or.inr (Or.inr
      (Or.inl (by norm_num))))

/-- Counterexample to claim C6: the generic engine's δ⁺ is the constant
binary64 value `0.99` — two in-range values of δ yield the same δ⁺. -/
theorem gen_delta_plus_ignores_delta_counterexample :
    l2.gen_delta_plus (1/2) = l2.gen_delta_plus (9/10) ∧
    ((1/2 : ℚ) ≠ 9/10) ∧ (1/4 : ℚ) < 1/2 ∧ (1/2 : ℚ) < 1 ∧
    (1/4 : ℚ) < 9/10 ∧ (9/10 : ℚ) < 1 :=
  ⟨rfl, by norm_num, by norm_num, by norm_num, by norm_num, by norm_num⟩

/-- Amended claim C6: `bigl2` derives η⁻ = (η + 1/2)/2 and δ⁺ = (δ + 1)/2
from the caller's parameters (so its δ⁺ genuinely varies with δ), and the
generic engine derives η⁻ the same way but hardcodes δ⁺ to the binary64
constant `0.99`, independent of δ. -/
theorem threshold_derivation_amended :
    (∀ e : ℚ, bigl2.eta_minus e = (e + 1/2) / 2) ∧
    (∀ d : ℚ, bigl2.delta_plus d = (d + 1) / 2) ∧
    (∀ e : ℚ, l2.gen_eta_minus e = (e + 1/2) / 2) ∧
    (∀ d1 d2 : ℚ, l2.gen_delta_plus d1 = l2.gen_delta_plus d2) ∧
    bigl2.delta_plus (1/2) ≠ bigl2.delta_plus (9/10) :=
  ⟨fun _ => rfl, fun _ => rfl, fun _ => rfl, fun _ _ => rfl,
    by norm_num [bigl2.delta_plus]⟩

/-- Counterexample to claim C8: on operands of unequal dimension the
zip-based dot products of `src/vector/mod.rs` and `src/algebra/vector.rs`
do not fail — they silently return the partial sum over the shorter
length. -/
theorem dot_silent_truncation_counterexample :
    BigVector.dot [1, 2, 3] [1, 1] = 3 ∧
    ([1, 2, 3] : List ℤ).length ≠ ([1, 1] : List ℤ).length ∧
    BigVector.dot [1, 2, 3] [1, 1] = BigVector.dot [1, 2] [1, 1] ∧
    algebraVector.dot [1, 2, 3] [1, 1] = 3 := by
  refine ⟨by decide, by decide, by decide, by decide⟩

lemma zip_take_left {α β : Type _} :
    ∀ (u : List α) (v : List β), u.zip v = (u.take v.length).zip v
  | [], v => by simp
  | _ :: _, [] => rfl
  | a :: u, b :: v => by
      simp only [List.zip_cons_cons, List.length_cons, List.take_succ_cons]
      rw [← zip_take_left u v]

/-- Amended claim C8: `add`/`sub` check dimensions and fail fast, but the
cited `Dot` implementations perform no check: `dot(u, v)` equals the dot
product of the truncation of `u` to `v`'s length with `v` (the partial sum
over the zipped common prefix), and the `algebra` and `vector` copies
agree. -/
theorem dot_dimension_behaviour_amended :
    (∀ u v : List ℤ, u.length ≠ v.length →
      BigVector.add u v = none ∧ BigVector.sub u v = none) ∧
    (∀ u v : List ℤ, BigVector.dot u v = BigVector.dot (u.take v.length) v) ∧
    (∀ u v : List ℤ, algebraVector.dot u v = BigVector.dot u v) := by
  refine ⟨fun u v h => ⟨by simp [BigVector.add, h], by simp [BigVector.sub, h]⟩,
    fun u v => ?_, fun _ _ => rfl⟩
  unfold BigVector.dot
  rw [← zip_take_left u v]

/-- Witness for the amended claim C8. -/
theorem dot_dimension_behaviour_witness :
    BigVector.add [1, 2, 3] [1, 1] = none ∧
    BigVector.dot [1, 2, 3] [1, 1] =
      BigVector.dot (([1, 2, 3] : List ℤ).take ([1, 1] : List ℤ).length) [1, 1] :=
  ⟨(dot_dimension_behaviour_amended.1 [1, 2, 3] [1, 1] (by decide)).1,
    dot_dimension_behaviour_amended.2.1 [1, 2, 3] [1, 1]⟩

/-- Claim C7: the classical-LLL size-reduce sweep coincides, on every
basis, with the specification-level sweep in which, for each column `i`,
the inner index `j` runs over the explicit descending list
`[i−1, …, 1]` — which never contains `0`, so `b_i` is never reduced
against `b_0` within a sweep — and each step subtracts
`round_div(⟨b_i,b_j⟩, ⟨b_j,b_j⟩) · b_j` from `b_i`. -/
theorem lll_sweep_descending_structure :
    (∀ (n d : ℕ) (B : List (Vec n)), lll.sweep d B = lll.sweepSpec d B) ∧
    (∀ m : ℕ, 0 ∉ lll.descFrom m) :=
  ⟨fun _ d B => sweepOuter_eq_spec (List.range d) B, zero_not_mem_descFrom⟩

/-- Claim C10: on a basis with zero columns the classical LLL engine
panics (the `n − 1` bound of the Lovász scan underflows `usize`), for
every amount of fuel that lets the first loop iteration run; on a
non-empty basis, no column access of the engine is ever out of bounds
(the fuel-driven run never reaches the panic outcome). -/
theorem lll_empty_basis_panics_nonzero_in_bounds :
    (∀ (n fuel : ℕ), lll.lattice_reduce (fuel + 1) ([] : List (Vec n)) = none) ∧
    (∀ (n : ℕ) (B : List (Vec n)) (fuel : ℕ), B ≠ [] →
      lll.lattice_reduce fuel B ≠ none) := by
  constructor
  · intro n fuel
    rfl
  · intro n B fuel hB
    have hd : B.length ≠ 0 := by simpa using hB
    exact (loop_facts hd fuel B rfl).1

/-- Witness for claim C10 at concrete inputs. -/
theorem lll_empty_basis_panics_witness :
    lll.lattice_reduce 2 idBasis ≠ none ∧
    lll.lattice_reduce 1 ([] : List (Vec 2)) = none :=
  ⟨lll_empty_basis_panics_nonzero_in_bounds.2 2 idBasis 2 (by decide),
    lll_empty_basis_panics_nonzero_in_bounds.1 2 0⟩

/-! # The generic L² engine: structural invariants -/

lemma cfa_basis {n : ℕ} (i : ℕ) (st : l2.GState n) :
    (l2.cfa i st).basis = st.basis := rfl

lemma computeS_basis {n : ℕ} (st : l2.GState n) :
    (l2.computeS st).basis = st.basis := rfl

lemma redLoop_facts {n : ℕ} (kappa : ℕ) (mu : List (List ℚ)) :
    ∀ (l : List ℕ) (p : List ℚ × List (Vec n)), (∀ i ∈ l, i < kappa) →
      kappa < p.2.length →
      (l2.redLoop kappa mu l p).2.length = p.2.length ∧
      spanOf (l2.redLoop kappa mu l p).2 = spanOf p.2 ∧
      (allZero p.2 → allZero (l2.redLoop kappa mu l p).2)
  | [], _, _, _ => ⟨rfl, rfl, fun h => h⟩
  | i :: rest, p, hl, hk => by
      have hik : i < kappa := hl i (by simp)
      rw [l2.redLoop]
      by_cases hx : roundQ (p.1.getD i 0) ≠ 0
      · rw [if_pos hx]
        obtain ⟨h1, h2, h3⟩ := redLoop_facts kappa mu rest
          ((List.range i).foldl
            (fun mm j => mm.set j (mm.getD j 0 - mget mu i j *
              ((roundQ (p.1.getD i 0) : ℤ) : ℚ))) p.1,
           translateCol p.2 kappa i (roundQ (p.1.getD i 0)))
          (fun t ht => hl t (List.mem_cons_of_mem _ ht))
          (by rw [translateCol_length]; exact hk)
        refine ⟨by rw [h1, translateCol_length], ?_,
          fun hz => h3 (allZero_translateCol hz _ _ _)⟩
        rw [h2]
        exact span_translateCol _ hk (by omega) (by omega)
      · rw [if_neg hx]
        exact redLoop_facts kappa mu rest p
          (fun t ht => hl t (List.mem_cons_of_mem _ ht)) hk

lemma gstate_mk_basis {n : ℕ} (b g m r s : _) (z k : ℕ) :
    (l2.GState.mk b g m r s z k : l2.GState n).basis = b := rfl

lemma gstate_mk_kappa {n : ℕ} (b g m r s : _) (z k : ℕ) :
    (l2.GState.mk b g m r s z k : l2.GState n).kappa = k := rfl

lemma gstate_mk_zeros {n : ℕ} (b g m r s : _) (z k : ℕ) :
    (l2.GState.mk b g m r s z k : l2.GState n).zeros = z := rfl

lemma prod_snd_mk {α β : Type _} (a : α) (b : β) : (Prod.mk a b).2 = b := rfl

lemma gen_size_reduce_facts {n : ℕ} (em : ℚ) (kappa : ℕ) :
    ∀ (fuel : ℕ) (st st2 : l2.GState n), kappa < st.basis.length →
      l2.size_reduce em kappa fuel st = some st2 →
      st2.basis.length = st.basis.length ∧ spanOf st2.basis = spanOf st.basis ∧
      (allZero st.basis → allZero st2.basis) ∧ st2.kappa = st.kappa ∧
      st2.zeros = st.zeros
  | 0, st, st2, _, h => by simp [l2.size_reduce] at h
  | fuel + 1, st, st2, hk, h => by
      simp only [l2.size_reduce] at h
      by_cases hb : l2.allMuSmall em kappa (l2.cfa kappa st) = true
      · rw [if_pos hb] at h
        obtain rfl : l2.cfa kappa st = st2 := by simpa using h
        exact ⟨rfl, rfl, fun z => z, rfl, rfl⟩
      · rw [if_neg hb] at h
        obtain ⟨h1, h2, h3⟩ := redLoop_facts kappa (l2.cfa kappa st).mu
          ((List.range kappa).reverse)
          ((l2.cfa kappa st).mu.getD kappa [], (l2.cfa kappa st).basis)
          (fun t ht => by
            have := List.mem_range.1 (List.mem_reverse.1 ht)
            omega)
          (by rw [prod_snd_mk, cfa_basis]; exact hk)
        rw [prod_snd_mk] at h1 h2 h3
        obtain ⟨g1, g2, g3, g4, g5⟩ := gen_size_reduce_facts em kappa fuel _ st2
          (by
            rw [gstate_mk_basis, h1, cfa_basis]
            exact hk) h
        rw [gstate_mk_basis] at g1 g2 g3
        rw [gstate_mk_kappa] at g4
        rw [gstate_mk_zeros] at g5
        refine ⟨by rw [g1, h1, cfa_basis], by rw [g2, h2, cfa_basis], ?_,
          g4, g5⟩
        intro hz
        exact g3 (h3 (by rw [cfa_basis]; exact hz))

lemma lowerKappa_le (dc : ℚ) (s : List ℚ) : ∀ k, l2.lowerKappa dc s k ≤ k
  | 0 => le_refl 0
  | k + 1 => by
      rw [l2.lowerKappa]
      split
      · exact (lowerKappa_le dc s k).trans (by omega)
      · exact le_refl _

lemma failBranchCore_basis {n : ℕ} (d kap2 : ℕ) (isNeg : Bool)
    (st2 : l2.GState n) :
    (l2.failBranchCore d kap2 isNeg st2).basis =
      (if (if isNeg then d - (st2.zeros + 1) else kap2) ≠ st2.kappa
       then insertCol st2.basis st2.kappa
         (if isNeg then d - (st2.zeros + 1) else kap2)
       else st2.basis) := by
  unfold l2.failBranchCore
  cases isNeg
  · by_cases hkk : kap2 ≠ st2.kappa <;> simp [hkk]
  · by_cases hkk : (d - (st2.zeros + 1)) ≠ st2.kappa <;> simp [hkk]

lemma failBranchCore_facts {n : ℕ} {d kap2 : ℕ} {isNeg : Bool}
    {st2 : l2.GState n} (hlen : st2.basis.length = d)
    (hk : st2.kappa < d - st2.zeros) (hk2 : kap2 ≤ st2.kappa) :
    (l2.failBranchCore d kap2 isNeg st2).basis.length = d ∧
    spanOf (l2.failBranchCore d kap2 isNeg st2).basis = spanOf st2.basis ∧
    (allZero st2.basis → allZero (l2.failBranchCore d kap2 isNeg st2).basis) := by
  have hkp : st2.kappa < d := by omega
  have hkkle : (if isNeg then d - (st2.zeros + 1) else kap2) ≤ d - 1 := by
    cases isNeg
    · simpa using by omega
    · simpa using by omega
  rw [failBranchCore_basis]
  by_cases hkk : (if isNeg then d - (st2.zeros + 1) else kap2) ≠ st2.kappa
  · rw [if_pos hkk]
    exact ⟨by rw [insertCol_length (by omega) (by omega), hlen],
      span_insertCol (by omega) (by omega), fun hz => allZero_insertCol hz _ _⟩
  · rw [if_neg hkk]
    exact ⟨hlen, rfl, fun z => z⟩

lemma genBody_facts {n : ℕ} {em dp : ℚ} {d iF : ℕ} {st st2 : l2.GState n}
    (hlen : st.basis.length = d) (hk : st.kappa < d - st.zeros)
    (h : l2.body em dp d iF st = some st2) :
    st2.basis.length = d ∧ spanOf st2.basis = spanOf st.basis ∧
    (allZero st.basis → allZero st2.basis) := by
  unfold l2.body at h
  cases hsr : l2.size_reduce em st.kappa iF st with
  | none => rw [hsr] at h; simp at h
  | some st1 =>
      rw [hsr] at h
      simp only [Option.map_some', Option.some_inj] at h
      obtain ⟨hl1, hs1, hz1, hkap1, hzer1⟩ :=
        gen_size_reduce_facts em st.kappa iF st st1 (by omega) hsr
      subst h
      set stc := l2.computeS st1 with hstc
      have hcb : stc.basis = st1.basis := rfl
      have hck : stc.kappa = st1.kappa := rfl
      have hcz : stc.zeros = st1.zeros := rfl
      split
      · -- Lovász failure: failBranch
        have hclen : stc.basis.length = d := by rw [hcb, hl1, hlen]
        have hckk : stc.kappa < d - stc.zeros := by
          rw [hck, hcz, hkap1, hzer1]
          exact hk
        obtain ⟨f1, f2, f3⟩ := @failBranchCore_facts n d
          (l2.lowerKappa (dp * mget stc.r (stc.kappa - 1) (stc.kappa - 1))
            stc.s stc.kappa)
          (decide (stc.s.getD (l2.lowerKappa
            (dp * mget stc.r (stc.kappa - 1) (stc.kappa - 1)) stc.s stc.kappa)
            0 ≤ 0))
          stc hclen hckk (lowerKappa_le _ _ _)
        unfold l2.failBranch
        refine ⟨f1, ?_, ?_⟩
        · rw [f2, hcb, hs1]
        · intro hz
          exact f3 (by rw [hcb]; exact hz1 hz)
      · -- Lovász success: only r and kappa change
        refine ⟨by rw [hcb, hl1, hlen], by rw [hcb, hs1], ?_⟩
        intro hz
        rw [hcb]
        exact hz1 hz

lemma genRun_facts {n : ℕ} {em dp : ℚ} {d iF : ℕ} :
    ∀ (fuel : ℕ) (st : l2.GState n) (B2 : List (Vec n)),
      st.basis.length = d →
      l2.genRun em dp d iF fuel st = some B2 →
      B2.length = d ∧ spanOf B2 = spanOf st.basis ∧
        (allZero st.basis → allZero B2)
  | 0, st, B2, hlen, h => by
      rw [l2.genRun] at h
      by_cases hd : d - st.zeros ≤ st.kappa
      · rw [if_pos hd] at h
        obtain rfl : st.basis = B2 := by simpa using h
        exact ⟨hlen, rfl, fun z => z⟩
      · rw [if_neg hd] at h
        simp at h
  | fuel + 1, st, B2, hlen, h => by
      rw [l2.genRun] at h
      by_cases hd : d - st.zeros ≤ st.kappa
      · rw [if_pos hd] at h
        obtain rfl : st.basis = B2 := by simpa using h
        exact ⟨hlen, rfl, fun z => z⟩
      · rw [if_neg hd] at h
        cases hbody : l2.body em dp d iF st with
        | none => rw [hbody] at h; simp at h
        | some st1 =>
            rw [hbody] at h
            simp only [Option.some_bind] at h
            obtain ⟨b1, b2, b3⟩ := genBody_facts hlen (by omega) hbody
            obtain ⟨r1, r2, r3⟩ := genRun_facts fuel st1 B2 b1 h
            exact ⟨r1, r2.trans b2, fun hz => r3 (b3 hz)⟩

lemma gen_reduce_facts {n : ℕ} {eta delta : ℚ} {B B2 : List (Vec n)}
    {iF oF : ℕ} (h : l2.lattice_reduce eta delta B iF oF = some B2) :
    B2.length = B.length ∧ spanOf B2 = spanOf B ∧ (allZero B → allZero B2) := by
  unfold l2.lattice_reduce at h
  cases hcp : checkParams eta delta with
  | false => rw [hcp] at h; simp at h
  | true =>
      rw [hcp] at h
      simp only [if_true] at h
      exact genRun_facts oF (l2.genInit B.length B) B2 rfl h


/-! # The `zeros_first` post-pass (`l2/mod.rs:174-179`) -/

lemma eraseIdx_concat_length {α : Type _} (A : List α) (z : α) :
    (A ++ [z]).eraseIdx A.length = A := by
  induction A with
  | nil => rfl
  | cons x xs ih => simpa using ih

lemma getLastD_irrel {n : ℕ} {l : List (Vec n)} (h : l ≠ []) (a b : Vec n) :
    l.getLastD a = l.getLastD b := by
  induction l using List.reverseRecOn with
  | nil => exact absurd rfl h
  | append_singleton A z ih => simp

lemma getD_last {n : ℕ} {P : List (Vec n)} (h : P ≠ []) :
    P.getD (P.length - 1) 0 = P.getLastD 0 := by
  induction P using List.reverseRecOn with
  | nil => exact absurd rfl h
  | append_singleton A z ih =>
      rw [List.getLastD_concat]
      have hl : (A ++ [z]).length - 1 = A.length := by simp
      rw [hl, List.getD_eq_getElem _ _ (by simp)]
      simp

lemma getLastD_cons_of_ne_nil {n : ℕ} {P : List (Vec n)} (h : P ≠ [])
    (z : Vec n) : (z :: P).getLastD 0 = P.getLastD 0 := by
  cases P with
  | nil => exact absurd rfl h
  | cons x xs => simp

lemma insertCol_concat_zero {n : ℕ} (A : List (Vec n)) (z : Vec n) :
    insertCol (A ++ [z]) ((A ++ [z]).length - 1) 0 = z :: A := by
  unfold insertCol
  have hl : (A ++ [z]).length - 1 = A.length := by simp
  rw [hl]
  have h2 : (A ++ [z]).getD A.length default = z := by
    rw [List.getD_eq_getElem _ _ (by simp)]
    simp
  rw [h2, eraseIdx_concat_length]
  rfl

lemma zfRun_allZero {n : ℕ} (d : ℕ) :
    ∀ (fuel : ℕ) (B : List (Vec n)), allZero B → l2.zfRun d fuel B = none
  | 0, _, _ => rfl
  | fuel + 1, B, h => by
      rw [l2.zfRun,
        if_pos (by rw [allZero_getD h]; exact (isZero_iff _).2 rfl)]
      exact zfRun_allZero d fuel _ (allZero_insertCol h _ _)

lemma zfRun_moves_zeros {n : ℕ} :
    ∀ (Z P : List (Vec n)) (d : ℕ), allZero Z → P ≠ [] →
      P.getLastD 0 ≠ 0 → d = P.length + Z.length →
      l2.zfRun d (Z.length + 1) (P ++ Z) = some (Z ++ P) := by
  intro Z
  induction Z using List.reverseRecOn with
  | nil =>
      intro P d _ hP hlast hd
      rw [List.append_nil, l2.zfRun]
      have hcond : ¬ (Vect.isZero (P.getD (d - 1) 0) = true) := by
        have hd1 : d - 1 = P.length - 1 := by simp at hd; omega
        rw [hd1, getD_last hP, isZero_iff]
        exact hlast
      rw [if_neg hcond]
      rfl
  | append_singleton Zp z ih =>
      intro P d hz hP hlast hd
      have hzz : z = 0 := hz z (by simp)
      have hZp : allZero Zp := fun v hv => hz v (by simp [hv])
      have hfuel : (Zp ++ [z]).length + 1 = (Zp.length + 1) + 1 := by simp
      rw [hfuel, l2.zfRun]
      have hassoc : P ++ (Zp ++ [z]) = (P ++ Zp) ++ [z] :=
        (List.append_assoc _ _ _).symm
      have hd1 : d - 1 = ((P ++ Zp) ++ [z]).length - 1 := by
        simp only [List.length_append, List.length_cons, List.length_nil]
        omega
      have hcond : Vect.isZero ((P ++ (Zp ++ [z])).getD (d - 1) 0) = true := by
        rw [hassoc, hd1, getD_last (by simp), List.getLastD_concat, isZero_iff]
        exact hzz
      rw [if_pos hcond]
      have hins : insertCol (P ++ (Zp ++ [z])) (d - 1) 0 = (z :: P) ++ Zp := by
        rw [hassoc, hd1, insertCol_concat_zero]
        rfl
      rw [hins,
        show (Zp ++ [z]) ++ P = Zp ++ (z :: P) from by
          rw [List.append_assoc]; rfl]
      exact ih (z :: P) d hZp (by simp)
        (by rw [getLastD_cons_of_ne_nil hP]; exact hlast)
        (by simp at hd ⊢; omega)

lemma exists_trailing_decomposition {n : ℕ} :
    ∀ (B : List (Vec n)), ¬ allZero B →
      ∃ P Z : List (Vec n),
        B = P ++ Z ∧ allZero Z ∧ P ≠ [] ∧ P.getLastD 0 ≠ 0 := by
  intro B
  induction B using List.reverseRecOn with
  | nil =>
      intro h
      exact absurd (fun v hv => absurd hv (List.not_mem_nil v)) h
  | append_singleton A z ih =>
      intro h
      by_cases hzz : z = 0
      · have hA : ¬ allZero A := by
          intro hA
          apply h
          intro v hv
          rcases List.mem_append.1 hv with h1 | h1
          · exact hA v h1
          · rw [List.mem_singleton.1 h1]
            exact hzz
        obtain ⟨P, Z, hBeq, hZ, hP, hlast⟩ := ih hA
        refine ⟨P, Z ++ [z], by rw [hBeq, List.append_assoc], ?_, hP, hlast⟩
        intro v hv
        rcases List.mem_append.1 hv with h1 | h1
        · exact hZ v h1
        · rw [List.mem_singleton.1 h1]
          exact hzz
      · exact ⟨A ++ [z], [], by simp,
          fun v hv => absurd hv (List.not_mem_nil v), by simp,
          by rw [List.getLastD_concat]; exact hzz⟩

lemma reduction_allZero_none {n : ℕ} (eta delta : ℚ) (B : List (Vec n))
    (iF1 oF1 iF2 oF2 zF : ℕ) (h : allZero B) :
    l2.reduction eta delta B iF1 oF1 iF2 oF2 zF = none := by
  unfold l2.reduction
  cases h1 : l2.lattice_reduce eta delta B iF1 oF1 with
  | none => rfl
  | some B1 =>
      have hz1 := (gen_reduce_facts h1).2.2 h
      simp only [Option.pure_def, Option.bind_eq_bind, Option.some_bind]
      cases h2 : l2.lattice_reduce eta delta B1 iF2 oF2 with
      | none => rfl
      | some B2 =>
          have hz2 := (gen_reduce_facts h2).2.2 hz1
          simp only [Option.some_bind]
          exact zfRun_allZero _ zF _ hz2

/-- **C9.** The `zeros_first` post-pass of the public L² pipeline
terminates exactly when the basis has a non-zero column: on an all-zero
basis the `while basis[d-1].is_zero()` loop never exits (every rotation
reproduces an all-zero basis), so the public `reduction` never returns;
and when the basis splits as `P ++ Z` with `Z` all-zero and `P` ending in
a non-zero column, the loop runs exactly `|Z|` rotations and returns
`Z ++ P`: the trailing zero columns are moved to the front and the
relative order of both the zero block and the remaining columns is
preserved. -/
theorem zeros_first_termination_and_order {n : ℕ} (eta delta : ℚ)
    (B P Z : List (Vec n)) (iF1 oF1 iF2 oF2 zF : ℕ) (hB : B ≠ []) :
    ((∃ fuel B2, l2.zfRun B.length fuel B = some B2) ↔ ¬ allZero B) ∧
    (allZero Z → P ≠ [] → P.getLastD 0 ≠ 0 →
      l2.zfRun (P ++ Z).length (Z.length + 1) (P ++ Z) = some (Z ++ P)) ∧
    (allZero B → l2.reduction eta delta B iF1 oF1 iF2 oF2 zF = none) := by
  refine ⟨⟨?_, ?_⟩, ?_, ?_⟩
  · rintro ⟨fuel, B2, hrun⟩ hz
    rw [zfRun_allZero _ fuel _ hz] at hrun
    exact Option.noConfusion hrun
  · intro hnz
    obtain ⟨P2, Z2, hBeq, hZ2, hP2, hlast2⟩ :=
      exists_trailing_decomposition B hnz
    refine ⟨Z2.length + 1, Z2 ++ P2, ?_⟩
    rw [hBeq]
    exact zfRun_moves_zeros Z2 P2 _ hZ2 hP2 hlast2 (by simp)
  · intro hZ hP hlast
    exact zfRun_moves_zeros Z P _ hZ hP hlast (by simp)
  · exact reduction_allZero_none eta delta B iF1 oF1 iF2 oF2 zF

/-- Witness for C9: on `[(1,0), (0,0)]` the post-pass rotates the zero
column to the front in one step, and on the all-zero basis `[(0,0)]` the
public reduction reports no result. -/
theorem zeros_first_witness :
    l2.zfRun 2 2 [e0, z2] = some [z2, e0] ∧
    l2.reduction (3/5) (19/20) [z2] 1 1 1 1 1 = none := by
  obtain ⟨h1, h2, h3⟩ := zeros_first_termination_and_order (3/5) (19/20)
    [z2] [e0] [z2] 1 1 1 1 1 (by simp)
  have hz : allZero [z2] := fun v hv => by
    rw [List.mem_singleton.1 hv]; decide
  exact ⟨h2 hz (by simp) (by decide), h3 hz⟩

/-! # Good-parameter runs on the identity basis -/

lemma bigl2_run_done {n : ℕ} (em dp : ℚ) (d iF : ℕ) :
    ∀ (fuel : ℕ) (st : bigl2.State n), d ≤ st.k →
      bigl2.run em dp d iF fuel st = some st.basis
  | 0, st, h => by rw [bigl2.run, if_pos h]
  | fuel + 1, st, h => by rw [bigl2.run, if_pos h]

lemma needsRed_VI0_pos {em : ℚ} (hem : 0 < em) :
    bigl2.needsReduction em 1
      (bigl2.updateMuR 1 (bigl2.initState 2 idBasis)) = false := by
  rw [VI0_eval]
  simp only [bigl2.needsReduction, list_range_one, List.any_cons, List.any_nil,
    mget, list_getD2_one, list_getD2_zero, Bool.or_false,
    decide_eq_false_iff_not]
  intro hlt
  linarith

lemma adv_VI0_lt {dp : ℚ} (hdp : dp < 1) :
    bigl2.advanceCond dp
      (bigl2.updateMuR 1 (bigl2.initState 2 idBasis)) = true := by
  rw [VI0_eval]
  unfold bigl2.advanceCond
  apply decide_eq_true
  simp only [bigl2.deltaCriterion, bigl2.scalarCriterion, mget,
    Nat.sub_self, list_getD2_zero, list_getD2_one, list_getD_nil]
  norm_num
  linarith

lemma bigl2_good_run (iF oF : ℕ) :
    bigl2.lattice_reduce (3/5) (19/20) idBasis (iF + 1) (oF + 1) =
      some idBasis := by
  unfold bigl2.lattice_reduce
  have hem : bigl2.eta_minus (3/5) = 11/20 := by norm_num [bigl2.eta_minus]
  have hdp : bigl2.delta_plus (19/20) = 39/40 := by norm_num [bigl2.delta_plus]
  rw [show idBasis.length = 2 from rfl, hem, hdp, bigl2.run,
    if_neg (by rw [show (bigl2.initState 2 idBasis).k = 1 from rfl]; omega)]
  have hbody : bigl2.body (11/20) (39/40) 2 (iF + 1)
      (bigl2.initState 2 idBasis) =
      some { bigl2.updateMuR 1 (bigl2.initState 2 idBasis) with k := 2 } := by
    unfold bigl2.body
    rw [show (bigl2.initState 2 idBasis).k = 1 from rfl,
      size_reduce_of_not_needs iF (needsRed_VI0_pos (by norm_num))]
    simp only [Option.map_some']
    rw [adv_VI0_lt (by norm_num)]
    simp only [if_true]
    rw [updateMuR_k]
    rfl
  rw [hbody]
  simp only [Option.some_bind]
  rw [bigl2_run_done (11/20) (39/40) 2 (iF + 1) oF _ (by exact le_refl 2)]
  rw [show ({ bigl2.updateMuR 1 (bigl2.initState 2 idBasis) with k := 2 } :
      bigl2.State 2).basis = (bigl2.updateMuR 1
        (bigl2.initState 2 idBasis)).basis from rfl, updateMuR_basis]
  rfl

lemma genRun_done {n : ℕ} (em dp : ℚ) (d iF : ℕ) :
    ∀ (fuel : ℕ) (st : l2.GState n), d - st.zeros ≤ st.kappa →
      l2.genRun em dp d iF fuel st = some st.basis
  | 0, st, h => by rw [l2.genRun, if_pos h]
  | fuel + 1, st, h => by rw [l2.genRun, if_pos h]

lemma gen_init_eval : l2.genInit 2 idBasis =
    ⟨[e0, e1], [[1, 0], [0, 1]], [[0, 0], [0, 0]], [[1, 0], [0, 0]],
      [0, 0], 0, 1⟩ := by
  norm_num [l2.genInit, computeGram, mget, mset, zeroMatQ, zeroMatZ, idBasis,
    Vect.dot, Fin.sum_univ_two, e0, e1, Matrix.cons_val_zero,
    Matrix.cons_val_one, Matrix.head_cons, list_replicate_two, list_set2_zero,
    list_set2_one, list_getD2_zero, list_getD2_one, list_getD_nil,
    list_range_two, list_range_one, list_range_zero, l2.GState.mk.injEq]

lemma gen_cfa_eval : l2.cfa 1
    ⟨[e0, e1], [[1, 0], [0, 1]], [[0, 0], [0, 0]], [[1, 0], [0, 0]],
      [0, 0], 0, 1⟩ =
    ⟨[e0, e1], [[1, 0], [0, 1]], [[0, 0], [0, 0]], [[1, 0], [0, 0]],
      [0, 0], 0, 1⟩ := by
  norm_num [l2.cfa, computeGram, mget, mset, idBasis, Vect.dot,
    Fin.sum_univ_two, e0, e1, Matrix.cons_val_zero, Matrix.cons_val_one,
    Matrix.head_cons, list_set2_zero, list_set2_one, list_getD2_zero,
    list_getD2_one, list_getD_nil, list_range_two, list_range_one,
    list_range_zero, l2.GState.mk.injEq]

lemma allMu_G1 {em : ℚ} (hem : 0 < em) :
    l2.allMuSmall em 1
      ⟨[e0, e1], [[1, 0], [0, 1]], [[0, 0], [0, 0]], [[1, 0], [0, 0]],
        [0, 0], 0, 1⟩ = true := by
  simp only [l2.allMuSmall, list_range_one, List.reverse_singleton,
    List.all_cons, List.all_nil, mget, list_getD2_one, list_getD2_zero,
    Bool.and_true, decide_eq_true_eq]
  rwa [abs_zero]

lemma gen_sr_eval {em : ℚ} (hem : 0 < em) (iF : ℕ) :
    l2.size_reduce em 1 (iF + 1)
      ⟨[e0, e1], [[1, 0], [0, 1]], [[0, 0], [0, 0]], [[1, 0], [0, 0]],
        [0, 0], 0, 1⟩ =
    some ⟨[e0, e1], [[1, 0], [0, 1]], [[0, 0], [0, 0]], [[1, 0], [0, 0]],
      [0, 0], 0, 1⟩ := by
  rw [l2.size_reduce]
  simp only [gen_cfa_eval, allMu_G1 hem, if_true]

lemma gen_computeS_eval : l2.computeS
    ⟨[e0, e1], [[1, 0], [0, 1]], [[0, 0], [0, 0]], [[1, 0], [0, 0]],
      [0, 0], 0, 1⟩ =
    ⟨[e0, e1], [[1, 0], [0, 1]], [[0, 0], [0, 0]], [[1, 0], [0, 0]],
      [1, 1], 0, 1⟩ := by
  norm_num [l2.computeS, mget, list_set2_zero, list_set2_one, list_getD2_zero,
    list_getD2_one, list_getD_nil, list_range_one, list_range_zero,
    l2.GState.mk.injEq]

lemma gen_body_eval {em dp : ℚ} (hem : 0 < em) (hdp : dp ≤ 1) (iF : ℕ) :
    l2.body em dp 2 (iF + 1)
      ⟨[e0, e1], [[1, 0], [0, 1]], [[0, 0], [0, 0]], [[1, 0], [0, 0]],
        [0, 0], 0, 1⟩ =
    some ⟨[e0, e1], [[1, 0], [0, 1]], [[0, 0], [0, 0]], [[1, 0], [0, 1]],
      [1, 1], 0, 2⟩ := by
  unfold l2.body
  rw [show (⟨[e0, e1], [[1, 0], [0, 1]], [[0, 0], [0, 0]],
      [[1, 0], [0, 0]], [0, 0], 0, 1⟩ : l2.GState 2).kappa = 1 from rfl,
    gen_sr_eval hem iF]
  simp only [Option.map_some']
  rw [gen_computeS_eval]
  rw [if_neg (by
    simp only [mget, Nat.sub_self, list_getD2_zero, list_getD2_one,
      list_getD_nil]
    norm_num
    linarith)]
  norm_num [mget, mset, Nat.sub_self, list_set2_zero, list_set2_one,
    list_getD2_zero, list_getD2_one, list_getD_nil, l2.GState.mk.injEq]

lemma l2_good_run (iF oF : ℕ) :
    l2.lattice_reduce (3/5) (19/20) idBasis (iF + 1) (oF + 1) =
      some idBasis := by
  unfold l2.lattice_reduce
  rw [show checkParams (3/5) (19/20) = true from by norm_num [checkParams],
    if_pos rfl]
  have hem : l2.gen_eta_minus (3/5) = 11/20 := by
    norm_num [l2.gen_eta_minus]
  rw [show idBasis.length = 2 from rfl, hem, gen_init_eval, l2.genRun,
    if_neg (by norm_num)]
  rw [gen_body_eval (by norm_num)
    (by norm_num [l2.gen_delta_plus, l2.delta_plus_const]) iF]
  simp only [Option.some_bind]
  rw [genRun_done _ _ 2 (iF + 1) oF _ (by norm_num)]
  rfl

lemma lll_sweep_idBasis : lll.sweep 2 idBasis = some idBasis := rfl

lemma lll_lovasz_idBasis :
    lll.lovaszLoop [0] idBasis = some (idBasis, false) := by
  rw [lll.lovaszLoop]
  simp only [idBasis, List.getElem?_cons_zero, List.getElem?_cons_succ,
    Option.pure_def, Option.bind_eq_bind, Option.some_bind]
  rw [show Vect.dot e1 e0 = 0 from by decide,
    show Vect.dot e0 e0 = 1 from by decide,
    show roundDiv 0 1 = 0 from by norm_num [roundDiv, roundQ],
    show Vect.add e1 (Vect.mulf e0 0) = e1 from by decide,
    show Vect.dot e1 e1 = 1 from by decide]
  rw [if_neg (by norm_num)]
  rfl

lemma lll_pass_idBasis : lll.pass 2 idBasis = some (idBasis, false) := by
  unfold lll.pass
  rw [lll_sweep_idBasis]
  simp only [Option.pure_def, Option.bind_eq_bind, Option.some_bind]
  rw [show usizeSub1 2 = some 1 from rfl]
  simp only [Option.some_bind]
  rw [show List.range 1 = [0] from rfl]
  exact lll_lovasz_idBasis

lemma lll_good_run (fuel : ℕ) :
    lll.lattice_reduce (fuel + 1) idBasis = some (some idBasis) := by
  unfold lll.lattice_reduce
  rw [show idBasis.length = 2 from rfl, lll.loop, lll_pass_idBasis]

/-- **C1.** Lattice preservation: every mutation either engine performs on
the basis — the translation `b_i ← b_i − α·b_j` with integer `α` and
`i ≠ j`, the column swap, and the column remove-and-reinsert — keeps the
ℤ-span of the columns, and consequently every successful run of the
classical LLL engine, of the BigNum L² engine and of the generic L² engine
returns a basis whose ℤ-span equals that of its input. -/
theorem lattice_preservation_unimodular {n : ℕ} (B B2 : List (Vec n))
    (i j : ℕ) (a : ℤ) (eta delta : ℚ) (fuel iF oF : ℕ) :
    (i < B.length → j < B.length → i ≠ j →
      spanOf (translateCol B i j a) = spanOf B) ∧
    (i < B.length → j < B.length → spanOf (swapCols B i j) = spanOf B) ∧
    (i < B.length → j ≤ B.length - 1 → spanOf (insertCol B i j) = spanOf B) ∧
    (lll.lattice_reduce fuel B = some (some B2) → spanOf B2 = spanOf B) ∧
    (bigl2.lattice_reduce eta delta B iF oF = some B2 →
      spanOf B2 = spanOf B) ∧
    (l2.lattice_reduce eta delta B iF oF = some B2 → spanOf B2 = spanOf B) :=
  ⟨fun hi hj hij => span_translateCol a hi hj hij,
    fun hi hj => span_swapCols hi hj,
    fun hi hj => span_insertCol hi hj,
    fun h => lll_run_span h,
    fun h => bigl2_reduce_span h,
    fun h => (gen_reduce_facts h).2.1⟩

/-- Witness for C1: on the identity basis of ℤ² all three engines return
(with η = 0.6, δ = 0.95 for the L² engines), and the three elementary
mutations at concrete indices preserve the span. -/
theorem lattice_preservation_witness :
    lll.lattice_reduce 1 idBasis = some (some idBasis) ∧
    bigl2.lattice_reduce (3/5) (19/20) idBasis 1 1 = some idBasis ∧
    l2.lattice_reduce (3/5) (19/20) idBasis 1 1 = some idBasis ∧
    spanOf (translateCol idBasis 1 0 7) = spanOf idBasis ∧
    spanOf (swapCols idBasis 0 1) = spanOf idBasis ∧
    spanOf (insertCol idBasis 1 0) = spanOf idBasis ∧
    spanOf idBasis = spanOf idBasis := by
  obtain ⟨t1, t2, t3, t4, t5, t6⟩ := lattice_preservation_unimodular
    idBasis idBasis 1 0 7 (3/5) (19/20) 1 1 1
  obtain ⟨u1, u2, u3, u4, u5, u6⟩ := lattice_preservation_unimodular
    idBasis idBasis 0 1 7 (3/5) (19/20) 1 1 1
  exact ⟨lll_good_run 0, bigl2_good_run 0 0, l2_good_run 0 0,
    t1 (by decide) (by decide) (by decide), u2 (by decide) (by decide),
    t3 (by decide) (by decide), t4 (lll_good_run 0)⟩

end LLLrs
